import Mathlib

/-!
Verification of the gcp_trader market-data proxy family against its
natural-language specification.

The Rust sources are shallowly embedded:
* `u64` / `u32` values become `Nat` with explicit `% 2^64` / `% 2^32`
  where the code can overflow;
* `f64` prices are only ever copied and compared (`f64::max` / `f64::min`)
  in the code under scrutiny, never added, so they are embedded as `Int`
  (any order-embedding of the finite non-NaN doubles);
* Rust `HashMap` / `HashSet` become association lists / duplicate-free
  lists with the corresponding operations;
* wall-clock reads (`Instant::now`, `SystemTime::now`) become explicit
  `now : Nat` parameters.
-/

/-- Modulus of Rust `u64` arithmetic. -/
def u64Mod : Nat := 2 ^ 64

/-- Modulus of Rust `u32` arithmetic. -/
def u32Mod : Nat := 2 ^ 32

/-! ## Embedding of `polygon_proxy/ms-aggregator/src/types.rs` (data types) -/

/-- Polygon trade message (`PolygonTrade` in `types.rs`): fields `sym`, `p`,
`s`, `t`.  Prices are embedded as `Int` (see module comment). -/
structure PolygonTrade where
  symbol : String
  price : Int
  size : Nat
  timestamp : Nat
deriving DecidableEq, Repr

/-- Generated millisecond bar (`MsBar` in `types.rs`).  The Rust field
`open` is called `open_` because `open` is a Lean keyword. -/
structure MsBar where
  event_type : String
  symbol : String
  interval_ms : Nat
  open_ : Int
  high : Int
  low : Int
  close : Int
  volume : Nat
  start_timestamp : Nat
  end_timestamp : Nat
  num_trades : Nat
deriving DecidableEq, Repr

/-! ## Embedding of `polygon_proxy/ms-aggregator/src/bar_aggregator.rs` -/

/-- `BarAggregator` state (`bar_aggregator.rs`).  The Rust field `open` is
called `open_` because `open` is a Lean keyword. -/
structure BarAggregator where
  symbol : String
  interval_ms : Nat
  open_ : Option Int
  high : Option Int
  low : Option Int
  close : Option Int
  volume : Nat
  num_trades : Nat
  window_start : Nat
  window_end : Nat
  last_trade_time : Nat
deriving DecidableEq, Repr

namespace BarAggregator

/-- `BarAggregator::new`.  The wall-clock read `current_timestamp_ms()` is
the explicit parameter `now`. -/
def new (symbol : String) (interval_ms now : Nat) : BarAggregator :=
  let window_start := now / interval_ms * interval_ms
  let window_end := window_start + interval_ms
  { symbol := symbol
    interval_ms := interval_ms
    open_ := none
    high := none
    low := none
    close := none
    volume := 0
    num_trades := 0
    window_start := window_start
    window_end := window_end
    last_trade_time := 0 }

/-- `BarAggregator::add_trade`. -/
def add_trade (a : BarAggregator) (trade : PolygonTrade) : BarAggregator :=
  let trade_time := trade.timestamp
  if trade_time < a.window_start then a
  else if a.window_end ≤ trade_time then a
  else
    { a with
      open_ := if a.open_.isNone then some trade.price else a.open_
      high := some (match a.high with
        | some h => max h trade.price
        | none => trade.price)
      low := some (match a.low with
        | some l => min l trade.price
        | none => trade.price)
      close := some trade.price
      volume := (a.volume + trade.size) % u64Mod
      num_trades := (a.num_trades + 1) % u32Mod
      last_trade_time := trade_time }

/-- `BarAggregator::is_ready` (wall clock explicit). -/
def is_ready (a : BarAggregator) (delay_ms now : Nat) : Bool :=
  a.window_end + delay_ms ≤ now

/-- `BarAggregator::has_data`. -/
def has_data (a : BarAggregator) : Bool :=
  a.open_.isSome

/-- `BarAggregator::advance_window`. -/
def advance_window (a : BarAggregator) : BarAggregator :=
  { a with
    window_start := a.window_end
    window_end := a.window_end + a.interval_ms
    open_ := none
    high := none
    low := none
    close := none
    volume := 0
    num_trades := 0 }

/-- `BarAggregator::emit_and_reset`.  Rust mutates `self` and returns
`Option<MsBar>`; here the bar and the post-state are returned as a pair.
The `unwrap()` calls are guarded by `has_data`, so `Option.getD 0` below
is never hit on the `none` side when the guard holds. -/
def emit_and_reset (a : BarAggregator) : Option MsBar × BarAggregator :=
  if !a.has_data then
    (none, a.advance_window)
  else
    let bar : MsBar :=
      { event_type := "MB"
        symbol := a.symbol
        interval_ms := a.interval_ms
        open_ := a.open_.getD 0
        high := a.high.getD 0
        low := a.low.getD 0
        close := a.close.getD 0
        volume := a.volume
        start_timestamp := a.window_start
        end_timestamp := a.window_end
        num_trades := a.num_trades }
    (some bar, a.advance_window)

/-- A trade falls inside the aggregator's current window. -/
def in_window (a : BarAggregator) (t : PolygonTrade) : Bool :=
  decide (a.window_start ≤ t.timestamp) && decide (t.timestamp < a.window_end)

/-- The accumulators are empty (state after `new` or `advance_window`). -/
def cleared (a : BarAggregator) : Prop :=
  a.open_ = none ∧ a.high = none ∧ a.low = none ∧ a.close = none ∧
    a.volume = 0 ∧ a.num_trades = 0

instance (a : BarAggregator) : Decidable (cleared a) := by
  unfold cleared; infer_instance

/-- Folding `add_trade` over a list of trades. -/
def add_trades (a : BarAggregator) (ts : List PolygonTrade) : BarAggregator :=
  ts.foldl add_trade a

/-- Accumulator shape of the `open` update in `add_trade`. -/
def openAcc (init : Option Int) (l : List Int) : Option Int :=
  l.foldl (fun acc p => if acc.isNone then some p else acc) init

/-- Accumulator shape of the `high` update in `add_trade`. -/
def maxAcc (init : Option Int) (l : List Int) : Option Int :=
  l.foldl (fun acc p => some (match acc with | some x => max x p | none => p)) init

/-- Accumulator shape of the `low` update in `add_trade`. -/
def minAcc (init : Option Int) (l : List Int) : Option Int :=
  l.foldl (fun acc p => some (match acc with | some x => min x p | none => p)) init

/-- Accumulator shape of the `close` update in `add_trade`. -/
def lastAcc (init : Option Int) (l : List Int) : Option Int :=
  l.foldl (fun _ p => some p) init

/-- Sum of the `size` fields of a list of trades. -/
def sumSizes (ts : List PolygonTrade) : Nat :=
  (ts.map (·.size)).sum

theorem add_trade_of_out (a : BarAggregator) (t : PolygonTrade)
    (h : a.in_window t = false) : a.add_trade t = a := by
  simp only [in_window, Bool.and_eq_false_iff, decide_eq_false_iff_not, not_lt, not_le] at h
  unfold add_trade
  dsimp only
  split
  · rfl
  · split
    · rfl
    · rename_i h1 h2
      simp only [not_lt, not_le] at h1 h2
      rcases h with h | h <;> omega

theorem add_trade_of_in (a : BarAggregator) (t : PolygonTrade)
    (h : a.in_window t = true) :
    a.add_trade t =
      { a with
        open_ := if a.open_.isNone then some t.price else a.open_
        high := some (match a.high with
          | some x => max x t.price
          | none => t.price)
        low := some (match a.low with
          | some x => min x t.price
          | none => t.price)
        close := some t.price
        volume := (a.volume + t.size) % u64Mod
        num_trades := (a.num_trades + 1) % u32Mod
        last_trade_time := t.timestamp } := by
  simp only [in_window, Bool.and_eq_true, decide_eq_true_eq] at h
  unfold add_trade
  dsimp only
  split
  · omega
  · split
    · omega
    · rfl

theorem add_trade_window_start (a : BarAggregator) (t : PolygonTrade) :
    (a.add_trade t).window_start = a.window_start := by
  by_cases h : a.in_window t
  · rw [add_trade_of_in a t h]
  · rw [add_trade_of_out a t (by simpa using h)]

theorem add_trade_window_end (a : BarAggregator) (t : PolygonTrade) :
    (a.add_trade t).window_end = a.window_end := by
  by_cases h : a.in_window t
  · rw [add_trade_of_in a t h]
  · rw [add_trade_of_out a t (by simpa using h)]

theorem in_window_add_trade (a : BarAggregator) (t : PolygonTrade) :
    (a.add_trade t).in_window = a.in_window := by
  funext u
  unfold in_window
  rw [add_trade_window_start, add_trade_window_end]

theorem add_trade_symbol (a : BarAggregator) (t : PolygonTrade) :
    (a.add_trade t).symbol = a.symbol := by
  by_cases h : a.in_window t
  · rw [add_trade_of_in a t h]
  · rw [add_trade_of_out a t (by simpa using h)]

theorem add_trade_interval (a : BarAggregator) (t : PolygonTrade) :
    (a.add_trade t).interval_ms = a.interval_ms := by
  by_cases h : a.in_window t
  · rw [add_trade_of_in a t h]
  · rw [add_trade_of_out a t (by simpa using h)]

theorem add_trades_cons (a : BarAggregator) (t : PolygonTrade)
    (ts : List PolygonTrade) :
    a.add_trades (t :: ts) = (a.add_trade t).add_trades ts := rfl

theorem add_trades_window_start (ts : List PolygonTrade) :
    ∀ a : BarAggregator, (a.add_trades ts).window_start = a.window_start := by
  induction ts with
  | nil => intro a; rfl
  | cons t ts ih =>
    intro a
    rw [add_trades_cons, ih, add_trade_window_start]

theorem add_trades_window_end (ts : List PolygonTrade) :
    ∀ a : BarAggregator, (a.add_trades ts).window_end = a.window_end := by
  induction ts with
  | nil => intro a; rfl
  | cons t ts ih =>
    intro a
    rw [add_trades_cons, ih, add_trade_window_end]

theorem add_trades_symbol (ts : List PolygonTrade) :
    ∀ a : BarAggregator, (a.add_trades ts).symbol = a.symbol := by
  induction ts with
  | nil => intro a; rfl
  | cons t ts ih =>
    intro a
    rw [add_trades_cons, ih, add_trade_symbol]

theorem add_trades_interval (ts : List PolygonTrade) :
    ∀ a : BarAggregator, (a.add_trades ts).interval_ms = a.interval_ms := by
  induction ts with
  | nil => intro a; rfl
  | cons t ts ih =>
    intro a
    rw [add_trades_cons, ih, add_trade_interval]

theorem open_add_trades (ts : List PolygonTrade) :
    ∀ a : BarAggregator,
      (a.add_trades ts).open_ =
        openAcc a.open_ ((ts.filter a.in_window).map (·.price)) := by
  induction ts with
  | nil => intro a; rfl
  | cons t ts ih =>
    intro a
    rw [add_trades_cons, ih, in_window_add_trade]
    by_cases h : a.in_window t
    · rw [List.filter_cons_of_pos h, List.map_cons]
      rw [add_trade_of_in a t h]
      rfl
    · rw [List.filter_cons_of_neg (by simpa using h)]
      rw [add_trade_of_out a t (by simpa using h)]

theorem high_add_trades (ts : List PolygonTrade) :
    ∀ a : BarAggregator,
      (a.add_trades ts).high =
        maxAcc a.high ((ts.filter a.in_window).map (·.price)) := by
  induction ts with
  | nil => intro a; rfl
  | cons t ts ih =>
    intro a
    rw [add_trades_cons, ih, in_window_add_trade]
    by_cases h : a.in_window t
    · rw [List.filter_cons_of_pos h, List.map_cons]
      rw [add_trade_of_in a t h]
      rfl
    · rw [List.filter_cons_of_neg (by simpa using h)]
      rw [add_trade_of_out a t (by simpa using h)]

theorem low_add_trades (ts : List PolygonTrade) :
    ∀ a : BarAggregator,
      (a.add_trades ts).low =
        minAcc a.low ((ts.filter a.in_window).map (·.price)) := by
  induction ts with
  | nil => intro a; rfl
  | cons t ts ih =>
    intro a
    rw [add_trades_cons, ih, in_window_add_trade]
    by_cases h : a.in_window t
    · rw [List.filter_cons_of_pos h, List.map_cons]
      rw [add_trade_of_in a t h]
      rfl
    · rw [List.filter_cons_of_neg (by simpa using h)]
      rw [add_trade_of_out a t (by simpa using h)]

theorem close_add_trades (ts : List PolygonTrade) :
    ∀ a : BarAggregator,
      (a.add_trades ts).close =
        lastAcc a.close ((ts.filter a.in_window).map (·.price)) := by
  induction ts with
  | nil => intro a; rfl
  | cons t ts ih =>
    intro a
    rw [add_trades_cons, ih, in_window_add_trade]
    by_cases h : a.in_window t
    · rw [List.filter_cons_of_pos h, List.map_cons]
      rw [add_trade_of_in a t h]
      rfl
    · rw [List.filter_cons_of_neg (by simpa using h)]
      rw [add_trade_of_out a t (by simpa using h)]

theorem volume_add_trades (ts : List PolygonTrade) :
    ∀ a : BarAggregator, a.volume < u64Mod →
      (a.add_trades ts).volume =
        (a.volume + sumSizes (ts.filter a.in_window)) % u64Mod := by
  induction ts with
  | nil =>
    intro a ha
    simp [add_trades, sumSizes, Nat.mod_eq_of_lt ha]
  | cons t ts ih =>
    intro a ha
    rw [add_trades_cons]
    by_cases h : a.in_window t
    · rw [ih _ (by
        rw [add_trade_of_in a t h]
        exact Nat.mod_lt _ (by unfold u64Mod; positivity))]
      rw [in_window_add_trade, List.filter_cons_of_pos h]
      rw [add_trade_of_in a t h]
      simp only [sumSizes, List.map_cons, List.sum_cons]
      rw [Nat.mod_add_mod, Nat.add_assoc]
    · rw [add_trade_of_out a t (by simpa using h), ih _ ha]
      rw [List.filter_cons_of_neg (by simpa using h)]

theorem num_trades_add_trades (ts : List PolygonTrade) :
    ∀ a : BarAggregator, a.num_trades < u32Mod →
      (a.add_trades ts).num_trades =
        (a.num_trades + (ts.filter a.in_window).length) % u32Mod := by
  induction ts with
  | nil =>
    intro a ha
    simp [add_trades, Nat.mod_eq_of_lt ha]
  | cons t ts ih =>
    intro a ha
    rw [add_trades_cons]
    by_cases h : a.in_window t
    · rw [ih _ (by
        rw [add_trade_of_in a t h]
        exact Nat.mod_lt _ (by unfold u32Mod; positivity))]
      rw [in_window_add_trade, List.filter_cons_of_pos h]
      rw [add_trade_of_in a t h]
      simp only [List.length_cons]
      rw [Nat.mod_add_mod]
      congr 1
      omega
    · rw [add_trade_of_out a t (by simpa using h), ih _ ha]
      rw [List.filter_cons_of_neg (by simpa using h)]

theorem openAcc_some (x : Int) (l : List Int) : openAcc (some x) l = some x := by
  induction l with
  | nil => rfl
  | cons p l ih => simpa [openAcc] using ih

theorem maxAcc_some (l : List Int) :
    ∀ x : Int, maxAcc (some x) l = some (l.foldl max x) := by
  induction l with
  | nil => intro x; rfl
  | cons p l ih => intro x; simpa [maxAcc] using ih (max x p)

theorem minAcc_some (l : List Int) :
    ∀ x : Int, minAcc (some x) l = some (l.foldl min x) := by
  induction l with
  | nil => intro x; rfl
  | cons p l ih => intro x; simpa [minAcc] using ih (min x p)

theorem openAcc_none_cons (p : Int) (l : List Int) :
    openAcc none (p :: l) = some p := by
  rw [show openAcc none (p :: l) = openAcc (some p) l from rfl, openAcc_some]

theorem maxAcc_none_cons (p : Int) (l : List Int) :
    maxAcc none (p :: l) = some (l.foldl max p) := by
  rw [show maxAcc none (p :: l) = maxAcc (some p) l from rfl, maxAcc_some]

theorem minAcc_none_cons (p : Int) (l : List Int) :
    minAcc none (p :: l) = some (l.foldl min p) := by
  rw [show minAcc none (p :: l) = minAcc (some p) l from rfl, minAcc_some]

theorem lastAcc_some (l : List Int) :
    ∀ x : Int, lastAcc (some x) l = some (l.getLastD x) := by
  induction l with
  | nil => intro x; rfl
  | cons p l ih =>
    intro x
    show lastAcc (some p) l = some ((p :: l).getLastD x)
    rw [List.getLastD_cons]
    exact ih p

theorem lastAcc_none_cons (p : Int) (l : List Int) :
    lastAcc none (p :: l) = some (l.getLastD p) := by
  rw [show lastAcc none (p :: l) = lastAcc (some p) l from rfl, lastAcc_some]

end BarAggregator

/-- **C2.** For a `BarAggregator` with cleared accumulators, after any
sequence of `add_trade` calls: if the current window received at least one
trade, `emit_and_reset` produces a bar whose `open` is the first in-window
trade's price, `close` the last, `high` the maximum, `low` the minimum,
`volume` the sum of sizes, `num_trades` the count, with
`start = window_start` and `end = window_end`; if the window received no
trade it emits nothing.  Either way the window advances
(`window_start ← window_end`, `window_end ← window_start + interval_ms`)
and the accumulators are cleared. -/
theorem BarAggregator.emit_and_reset_spec (a : BarAggregator)
    (ts : List PolygonTrade) (hc : a.cleared) :
    (∀ t0 rest, ts.filter a.in_window = t0 :: rest →
      sumSizes (t0 :: rest) < u64Mod → (t0 :: rest).length < u32Mod →
      (a.add_trades ts).emit_and_reset =
        (some { event_type := "MB"
                symbol := a.symbol
                interval_ms := a.interval_ms
                open_ := t0.price
                high := (rest.map (·.price)).foldl max t0.price
                low := (rest.map (·.price)).foldl min t0.price
                close := (rest.map (·.price)).getLastD t0.price
                volume := sumSizes (t0 :: rest)
                start_timestamp := a.window_start
                end_timestamp := a.window_end
                num_trades := (t0 :: rest).length },
          (a.add_trades ts).advance_window)) ∧
    (ts.filter a.in_window = [] →
      (a.add_trades ts).emit_and_reset =
        (none, (a.add_trades ts).advance_window)) ∧
    ((a.add_trades ts).advance_window.window_start = a.window_end ∧
      (a.add_trades ts).advance_window.window_end =
        a.window_end + a.interval_ms ∧
      (a.add_trades ts).advance_window.cleared) := by
  obtain ⟨ho, hh, hl, hcl, hv, hn⟩ := hc
  refine ⟨?_, ?_, ?_, ?_, ?_⟩
  · intro t0 rest hws hsum hlen
    have hopen : (a.add_trades ts).open_ = some t0.price := by
      rw [open_add_trades, ho, hws, List.map_cons, openAcc_none_cons]
    have hhigh : (a.add_trades ts).high =
        some ((rest.map (·.price)).foldl max t0.price) := by
      rw [high_add_trades, hh, hws, List.map_cons, maxAcc_none_cons]
    have hlow : (a.add_trades ts).low =
        some ((rest.map (·.price)).foldl min t0.price) := by
      rw [low_add_trades, hl, hws, List.map_cons, minAcc_none_cons]
    have hclose : (a.add_trades ts).close =
        some ((rest.map (·.price)).getLastD t0.price) := by
      rw [close_add_trades, hcl, hws, List.map_cons, lastAcc_none_cons]
    have hvol : (a.add_trades ts).volume = sumSizes (t0 :: rest) := by
      rw [volume_add_trades ts a (by rw [hv]; unfold u64Mod; positivity),
        hv, hws, Nat.zero_add, Nat.mod_eq_of_lt hsum]
    have hnum : (a.add_trades ts).num_trades = (t0 :: rest).length := by
      rw [num_trades_add_trades ts a (by rw [hn]; unfold u32Mod; positivity),
        hn, hws, Nat.zero_add, Nat.mod_eq_of_lt hlen]
    simp [emit_and_reset, has_data, hopen, hhigh, hlow, hclose, hvol, hnum,
      add_trades_symbol, add_trades_interval, add_trades_window_start,
      add_trades_window_end]
  · intro hws
    have hopen : (a.add_trades ts).open_ = none := by
      rw [open_add_trades, ho, hws]
      rfl
    simp [emit_and_reset, has_data, hopen]
  · rw [advance_window]
    rw [add_trades_window_end]
  · rw [advance_window]
    dsimp only
    rw [add_trades_window_end, add_trades_interval]
  · simp [advance_window, cleared]

/-- Witness for C2 at a concrete aggregator and trade list. -/
theorem BarAggregator.emit_and_reset_spec_witness :
    ((BarAggregator.new "X" 1000 0).add_trades
        [⟨"X", 150, 100, 100⟩, ⟨"X", 149, 50, 200⟩]).emit_and_reset =
      (some { event_type := "MB"
              symbol := "X"
              interval_ms := 1000
              open_ := 150
              high := 150
              low := 149
              close := 149
              volume := 150
              start_timestamp := 0
              end_timestamp := 1000
              num_trades := 2 },
        ((BarAggregator.new "X" 1000 0).add_trades
          [⟨"X", 150, 100, 100⟩, ⟨"X", 149, 50, 200⟩]).advance_window) := by
  have h := (BarAggregator.emit_and_reset_spec (BarAggregator.new "X" 1000 0)
      [⟨"X", 150, 100, 100⟩, ⟨"X", 149, 50, 200⟩] (by decide)).1
      ⟨"X", 150, 100, 100⟩ [⟨"X", 149, 50, 200⟩] (by decide) (by decide)
      (by decide)
  exact h.trans (by decide)

/-- **C7.** `add_trade` ignores trades outside the current window (the
whole aggregator state is unchanged, no auto-advance), and for an
in-window trade it updates the full OHLCV state: `open` set only on the
first trade of the window, `high`/`low` maxed/minned with the trade
price, `close`, `volume`, `num_trades` and `last_trade_time`. -/
theorem BarAggregator.add_trade_frame (a : BarAggregator) (t : PolygonTrade) :
    ((t.timestamp < a.window_start ∨ a.window_end ≤ t.timestamp) →
      a.add_trade t = a) ∧
    (a.window_start ≤ t.timestamp → t.timestamp < a.window_end →
      (a.add_trade t).open_ =
          (if a.open_.isNone then some t.price else a.open_) ∧
        (a.add_trade t).high = some (match a.high with
          | some x => max x t.price
          | none => t.price) ∧
        (a.add_trade t).low = some (match a.low with
          | some x => min x t.price
          | none => t.price) ∧
        (a.add_trade t).close = some t.price ∧
        (a.add_trade t).volume = (a.volume + t.size) % u64Mod ∧
        (a.add_trade t).num_trades = (a.num_trades + 1) % u32Mod ∧
        (a.add_trade t).last_trade_time = t.timestamp ∧
        (a.add_trade t).window_start = a.window_start ∧
        (a.add_trade t).window_end = a.window_end) := by
  constructor
  · intro h
    apply add_trade_of_out
    simp only [in_window, Bool.and_eq_false_iff, decide_eq_false_iff_not,
      not_le, not_lt]
    omega
  · intro h1 h2
    rw [add_trade_of_in a t (by
      simp only [in_window, Bool.and_eq_true, decide_eq_true_eq]
      exact ⟨h1, h2⟩)]
    exact ⟨rfl, rfl, rfl, rfl, rfl, rfl, rfl, rfl, rfl⟩

/-- Witness for C7: a late trade is ignored, an in-window trade updates
`close`. -/
theorem BarAggregator.add_trade_frame_witness :
    ((BarAggregator.new "X" 1000 0).add_trade ⟨"X", 150, 100, 5000⟩ =
        BarAggregator.new "X" 1000 0) ∧
      ((BarAggregator.new "X" 1000 0).add_trade ⟨"X", 150, 100, 100⟩).close =
        some 150 := by
  constructor
  · exact (BarAggregator.add_trade_frame (BarAggregator.new "X" 1000 0)
      ⟨"X", 150, 100, 5000⟩).1 (Or.inr (by decide))
  · exact ((BarAggregator.add_trade_frame (BarAggregator.new "X" 1000 0)
      ⟨"X", 150, 100, 100⟩).2 (by decide) (by decide)).2.2.2.1

/-! ## Embedding of the reconnect loops (C9)

`alpaca_trade_updates_proxy/src/main.rs`, `UpstreamConnection::run`:

    let mut backoff = 1;
    loop {
        match self.connect_and_stream().await {
            Ok(_)  => { backoff = 1; }
            Err(e) => { sleep(Duration::from_secs(backoff)).await;
                        backoff = (backoff * 2).min(60); }
        }
    }

`polygon_proxy/filtered-proxy/src/upstream.rs`, `UpstreamConnection::run`:

    loop {
        if let Err(e) = self.connect_and_forward().await {
            tokio::time::sleep(Duration::from_secs(5)).await;
        }
    }

Each iteration's `connect_and_stream` / `connect_and_forward` outcome is an
element of `ConnOutcome`; the embedding returns the sequence of sleep
durations (in seconds) the loop performs for a given outcome sequence. -/

/-- Outcome of one connection attempt of a reconnect loop. -/
inductive ConnOutcome where
  | ok
  | err
deriving DecidableEq, Repr

/-- Sleep durations (seconds) of the standalone trade-updates proxy
reconnect loop, starting from backoff `b`. -/
def alpacaSleeps (b : Nat) : List ConnOutcome → List Nat
  | [] => []
  | ConnOutcome.ok :: rest => alpacaSleeps 1 rest
  | ConnOutcome.err :: rest => b :: alpacaSleeps (min (b * 2) 60) rest

/-- Sleep durations (seconds) of the filtered-proxy reconnect loop. -/
def filteredSleeps : List ConnOutcome → List Nat
  | [] => []
  | ConnOutcome.ok :: rest => filteredSleeps rest
  | ConnOutcome.err :: rest => 5 :: filteredSleeps rest

theorem backoff_step (k : Nat) :
    min (min (2 ^ k) 60 * 2) 60 = min (2 ^ (k + 1)) 60 := by
  rcases le_or_lt (2 ^ k) 60 with h | h
  · rw [min_eq_left h, pow_succ]
  · have h2 : (60 : Nat) ≤ 2 ^ (k + 1) :=
      le_trans h.le (Nat.pow_le_pow_right (by omega) (Nat.le_succ k))
    rw [min_eq_right h.le, min_eq_right (show (60 : Nat) ≤ 60 * 2 by omega),
      min_eq_right h2]

theorem alpacaSleeps_err_run (n : Nat) :
    ∀ (k : Nat) (rest : List ConnOutcome),
      alpacaSleeps (min (2 ^ k) 60) (List.replicate n ConnOutcome.err ++ rest) =
        (List.range n).map (fun i => min (2 ^ (k + i)) 60) ++
          alpacaSleeps (min (2 ^ (k + n)) 60) rest := by
  induction n with
  | zero => intro k rest; simp
  | succ n ih =>
    intro k rest
    rw [List.replicate_succ, List.cons_append]
    show min (2 ^ k) 60 :: alpacaSleeps (min (min (2 ^ k) 60 * 2) 60)
        (List.replicate n ConnOutcome.err ++ rest) = _
    rw [backoff_step, ih (k + 1) rest]
    rw [List.range_succ_eq_map, List.map_cons, List.map_map, List.cons_append]
    have hfun : ((fun i => min (2 ^ (k + i)) 60) ∘ Nat.succ) =
        fun i => min (2 ^ (k + 1 + i)) 60 := by
      funext i
      simp only [Function.comp_apply]
      have h3 : k + Nat.succ i = k + 1 + i := by omega
      rw [h3]
    rw [hfun]
    have hexp : k + (n + 1) = k + 1 + n := by omega
    rw [hexp]
    norm_num

/-- **C9.** In the standalone trade-updates proxy reconnect loop the sleep
before the `i`-th consecutive retry after an error is `min (2^i) 60`
seconds — i.e. it doubles from 1 s and is capped at 60 s — the backoff
resets to 1 s after a successful connection (which itself causes no
sleep), while the filtered-proxy loop sleeps a fixed 5 s after every
erroring connection attempt and never otherwise. -/
theorem reconnect_backoff_spec (n : Nat) (rest outs : List ConnOutcome) :
    (alpacaSleeps 1 (List.replicate n ConnOutcome.err ++ rest) =
      (List.range n).map (fun i => min (2 ^ i) 60) ++
        alpacaSleeps (min (2 ^ n) 60) rest) ∧
    (∀ b : Nat, alpacaSleeps b (ConnOutcome.ok :: rest) =
      alpacaSleeps 1 rest) ∧
    (filteredSleeps outs =
      (outs.filter (· = ConnOutcome.err)).map (fun _ => 5)) := by
  refine ⟨?_, fun b => rfl, ?_⟩
  · have h := alpacaSleeps_err_run n 0 rest
    simpa using h
  · induction outs with
    | nil => rfl
    | cons o rest2 ih =>
      cases o
      · simpa [filteredSleeps] using ih
      · simpa [filteredSleeps] using ih

/-! ## Generic containers: Rust `HashMap` / `HashSet` as association lists

Iteration order of Rust hash containers is unspecified; the embedding
fixes insertion order, which is one admissible order. -/

/-- Downstream client identifier (`Uuid` in the source). -/
abbrev ClientId := Nat

/-- `HashMap::get` on an association list. -/
def lookupA {α β : Type} [DecidableEq α] (m : List (α × β)) (k : α) :
    Option β :=
  (m.find? (fun p => decide (p.1 = k))).map (·.2)

/-- `HashMap::entry(k).or_insert(d)` followed by an in-place update `f`. -/
def entryUpdate {α β : Type} [DecidableEq α] :
    List (α × β) → α → β → (β → β) → List (α × β)
  | [], k, d, f => [(k, f d)]
  | (k2, v) :: rest, k, d, f =>
    if k2 = k then (k2, f v) :: rest else (k2, v) :: entryUpdate rest k d f

/-- `HashMap::insert` (replace the value if the key exists, else append). -/
def mapSet {α β : Type} [DecidableEq α] :
    List (α × β) → α → β → List (α × β)
  | [], k, v => [(k, v)]
  | (k2, v2) :: rest, k, v =>
    if k2 = k then (k2, v) :: rest else (k2, v2) :: mapSet rest k v

/-- `HashMap::remove`. -/
def mapRemove {α β : Type} [DecidableEq α] (m : List (α × β)) (k : α) :
    List (α × β) :=
  m.filter (fun p => decide (p.1 ≠ k))

/-- `HashSet::insert`. -/
def setInsert {α : Type} [DecidableEq α] (l : List α) (x : α) : List α :=
  if x ∈ l then l else l ++ [x]

/-- `HashSet::remove`. -/
def setRemove {α : Type} [DecidableEq α] (l : List α) (x : α) : List α :=
  l.filter (fun y => decide (y ≠ x))

/-! ## Character-level string helpers (Rust `str` operations) -/

/-- Rust `str::split(sep)` on the character list of a string
(`"".split(s)` yields one empty item, like in Rust). -/
def splitOnChar (sep : Char) : List Char → List (List Char)
  | [] => [[]]
  | c :: cs =>
    let r := splitOnChar sep cs
    if c = sep then [] :: r
    else
      match r with
      | h :: t => (c :: h) :: t
      | [] => [[c]]

/-- Rust `str::trim` (both ends; ASCII whitespace suffices here). -/
def trimChars (l : List Char) : List Char :=
  ((l.dropWhile Char.isWhitespace).reverse.dropWhile Char.isWhitespace).reverse

/-! ## Embedding of `polygon_proxy/filtered-proxy/src/subscription_manager.rs`

The router-side `SubscriptionManager`.  `Instant` timestamps are `Nat`
milliseconds passed explicitly (`now`); `Duration::from_secs(30)` is
30000 ms. -/

/-- One element of an upstream batch, as seen by
`get_filtered_messages_per_client`: the result of
`value.get("sym").and_then(as_str)` / `value.get("ev").and_then(as_str)`
plus an opaque payload standing for the rest of the JSON object. -/
structure UpEvent where
  ev : Option String
  sym : Option String
  payload : Nat
deriving DecidableEq, Repr

/-- Router-side `SubscriptionManager` state. -/
structure RouterSM where
  client_subs : List (ClientId × List String)
  wildcard_clients : List ClientId
  symbol_to_clients : List (String × List ClientId)
  pending_unsubs : List (String × Nat)
deriving DecidableEq, Repr

namespace RouterSM

/-- `SubscriptionManager::new`. -/
def new : RouterSM :=
  { client_subs := []
    wildcard_clients := []
    symbol_to_clients := []
    pending_unsubs := [] }

/-- `SubscriptionManager::parse_symbols`: split on `,`, trim, skip empty
items, collapse any item containing `*` to the global wildcard `"*"`,
deduplicate (the Rust code collects into a `HashSet<String>`). -/
def parse_symbols (params : String) : List String :=
  ((splitOnChar ',' params.data).map trimChars).foldl
    (fun acc item =>
      if item.isEmpty then acc
      else if item.contains '*' then setInsert acc "*"
      else setInsert acc (String.mk item))
    []

/-- Body of the per-symbol loop of `add_subscription`. -/
def add_subscription_step (client_id : ClientId) (st : RouterSM)
    (symbol : String) : RouterSM :=
  let st :=
    if symbol = "*" then
      { st with
        wildcard_clients := setInsert st.wildcard_clients client_id }
    else
      { st with
        symbol_to_clients :=
          entryUpdate st.symbol_to_clients symbol []
            (fun cs => setInsert cs client_id) }
  { st with
    client_subs :=
      entryUpdate st.client_subs client_id []
        (fun subs => setInsert subs symbol)
    pending_unsubs := mapRemove st.pending_unsubs symbol }

/-- `SubscriptionManager::add_subscription`. -/
def add_subscription (st : RouterSM) (client_id : ClientId)
    (params : String) : RouterSM :=
  (parse_symbols params).foldl (add_subscription_step client_id) st

/-- Shared body of the per-symbol removal in `remove_subscription` and
`remove_client`: drop `client_id` from the key's subscriber set and, if
the set became empty while no wildcard client exists, schedule the key
in `pending_unsubs`. -/
def drop_symbol_step (client_id : ClientId) (now : Nat) (st : RouterSM)
    (symbol : String) : RouterSM :=
  if symbol = "*" then
    { st with
      wildcard_clients := setRemove st.wildcard_clients client_id }
  else
    match lookupA st.symbol_to_clients symbol with
    | some clients =>
      let clients := setRemove clients client_id
      let st :=
        { st with
          symbol_to_clients :=
            mapSet st.symbol_to_clients symbol clients }
      if clients.isEmpty && st.wildcard_clients.isEmpty then
        { st with
          pending_unsubs := mapSet st.pending_unsubs symbol now }
      else st
    | none => st

/-- Body of the per-symbol loop of `remove_subscription`: the removal
step followed by the `client_subs` update. -/
def remove_subscription_step (client_id : ClientId) (now : Nat)
    (st : RouterSM) (symbol : String) : RouterSM :=
  let st := drop_symbol_step client_id now st symbol
  match lookupA st.client_subs client_id with
  | some subs =>
    { st with
      client_subs :=
        mapSet st.client_subs client_id (setRemove subs symbol) }
  | none => st

/-- `SubscriptionManager::remove_subscription` (wall clock explicit). -/
def remove_subscription (st : RouterSM) (client_id : ClientId)
    (params : String) (now : Nat) : RouterSM :=
  (parse_symbols params).foldl (remove_subscription_step client_id now) st

/-- `SubscriptionManager::cleanup_pending_unsubs` (wall clock explicit):
returns the keys whose pending timestamp is older than 30 s and removes
them from `pending_unsubs`. -/
def cleanup_pending_unsubs (st : RouterSM) (now : Nat) :
    List String × RouterSM :=
  let to_unsub :=
    (st.pending_unsubs.filter (fun p => decide (30000 < now - p.2))).map (·.1)
  let pending :=
    st.pending_unsubs.filter (fun p => !decide (30000 < now - p.2))
  (to_unsub, { st with pending_unsubs := pending })

/-- `SubscriptionManager::remove_client` (wall clock explicit).  The loop
body is the same per-symbol removal as in `remove_subscription` (without
the `client_subs` bookkeeping, since the whole entry was taken out). -/
def remove_client (st : RouterSM) (client_id : ClientId) (now : Nat) :
    RouterSM :=
  match lookupA st.client_subs client_id with
  | none => st
  | some subs =>
    let st := { st with client_subs := mapRemove st.client_subs client_id }
    subs.foldl (drop_symbol_step client_id now) st

/-- Push one event onto a client's accumulated sequence
(`client_messages` updates in `get_filtered_messages_per_client`; both
the `get_mut().unwrap().push` on initialized wildcard entries and the
`entry().or_insert_with(Vec::new).push` for specific subscribers). -/
def pushMsg (cm : ClientId → Option (List UpEvent)) (c : ClientId)
    (m : UpEvent) : ClientId → Option (List UpEvent) :=
  fun x => if x = c then some ((cm x).getD [] ++ [m]) else cm x

/-- Body of the per-message loop of `get_filtered_messages_per_client`. -/
def processMsg (st : RouterSM) (cm : ClientId → Option (List UpEvent))
    (m : UpEvent) : ClientId → Option (List UpEvent) :=
  match m.sym, m.ev with
  | some s, some e =>
    let subscription_key := e ++ "." ++ s
    let cm := st.wildcard_clients.foldl (fun acc c => pushMsg acc c m) cm
    match lookupA st.symbol_to_clients subscription_key with
    | some clients => clients.foldl (fun acc c => pushMsg acc c m) cm
    | none => cm
  | _, _ => st.wildcard_clients.foldl (fun acc c => pushMsg acc c m) cm

/-- `SubscriptionManager::get_filtered_messages_per_client`, branch where
the upstream batch parses as a JSON array.  The returned finite map
client → serialized non-empty sequence is embedded as a function to
`Option (List UpEvent)` (`none` = omitted from the result map). -/
def get_filtered_messages_per_client (st : RouterSM)
    (messages : List UpEvent) : ClientId → Option (List UpEvent) :=
  let init : ClientId → Option (List UpEvent) :=
    fun c => if c ∈ st.wildcard_clients then some [] else none
  let final := messages.foldl (processMsg st) init
  fun c =>
    match final c with
    | some l => if l.isEmpty then none else some l
    | none => none

/-- Specification-side delivery multiset for one event and one client:
the occurrences of event `m` that `get_filtered_messages_per_client`
appends to client `c`'s sequence. -/
def deliveries (st : RouterSM) (c : ClientId) (m : UpEvent) :
    List UpEvent :=
  match m.sym, m.ev with
  | some s, some e =>
    (if c ∈ st.wildcard_clients then [m] else []) ++
      (match lookupA st.symbol_to_clients (e ++ "." ++ s) with
        | some clients => if c ∈ clients then [m] else []
        | none => [])
  | _, _ => if c ∈ st.wildcard_clients then [m] else []

end RouterSM

namespace RouterSM

theorem foldl_pushMsg (m : UpEvent) (cs : List ClientId) :
    ∀ (cm : ClientId → Option (List UpEvent)) (c : ClientId),
      (cs.foldl (fun acc x => pushMsg acc x m) cm) c =
        if cs.count c = 0 then cm c
        else some ((cm c).getD [] ++ List.replicate (cs.count c) m) := by
  induction cs with
  | nil => intro cm c; simp
  | cons x cs ih =>
    intro cm c
    rw [List.foldl_cons, ih]
    by_cases hx : c = x
    · have hcm : pushMsg cm x m c = some ((cm c).getD [] ++ [m]) := by
        simp [pushMsg, hx]
      have hc : (x :: cs).count c = cs.count c + 1 := by
        rw [List.count_cons]
        simp [hx]
      rw [hcm, hc]
      rcases Nat.eq_zero_or_pos (cs.count c) with h0 | hpos
      · simp [h0]
      · have hne : cs.count c ≠ 0 := by omega
        simp [hne, List.append_assoc, List.replicate_succ]
    · have hcm : pushMsg cm x m c = cm c := by
        simp only [pushMsg, if_neg hx]
      have hc : (x :: cs).count c = cs.count c := by
        rw [List.count_cons]
        simp [hx, Ne.symm hx]
      rw [hcm, hc]

theorem foldl_pushMsg_nodup (m : UpEvent) (cs : List ClientId)
    (hnd : cs.Nodup) (cm : ClientId → Option (List UpEvent)) (c : ClientId) :
    (cs.foldl (fun acc x => pushMsg acc x m) cm) c =
      if c ∈ cs then some ((cm c).getD [] ++ [m]) else cm c := by
  rw [foldl_pushMsg]
  by_cases hmem : c ∈ cs
  · rw [List.count_eq_one_of_mem hnd hmem]
    simp [hmem]
  · rw [List.count_eq_zero.mpr hmem]
    simp [hmem]

theorem processMsg_apply (st : RouterSM) (m : UpEvent)
    (hw : st.wildcard_clients.Nodup)
    (hk : ∀ p ∈ st.symbol_to_clients, p.2.Nodup)
    (cm : ClientId → Option (List UpEvent)) (c : ClientId) :
    processMsg st cm m c =
      if deliveries st c m = [] then cm c
      else some ((cm c).getD [] ++ deliveries st c m) := by
  unfold processMsg deliveries
  rcases hs : m.sym with _ | s <;> rcases he : m.ev with _ | e
  all_goals dsimp only
  case none.none =>
    rw [foldl_pushMsg_nodup m _ hw]
    by_cases hmem : c ∈ st.wildcard_clients <;> simp [hmem]
  case none.some =>
    rw [foldl_pushMsg_nodup m _ hw]
    by_cases hmem : c ∈ st.wildcard_clients <;> simp [hmem]
  case some.none =>
    rw [foldl_pushMsg_nodup m _ hw]
    by_cases hmem : c ∈ st.wildcard_clients <;> simp [hmem]
  case some.some =>
    rcases hl : lookupA st.symbol_to_clients (e ++ "." ++ s) with _ | clients
    · dsimp only
      rw [foldl_pushMsg_nodup m _ hw]
      by_cases hmem : c ∈ st.wildcard_clients <;> simp [hmem]
    · have hcl : clients.Nodup := by
        rcases hfound : List.find? (fun p => decide (p.1 = e ++ "." ++ s))
            st.symbol_to_clients with _ | p
        · simp [lookupA, hfound] at hl
        · have hpm : p ∈ st.symbol_to_clients :=
            List.mem_of_find?_eq_some hfound
          have hp2 : p.2 = clients := by
            simp [lookupA, hfound] at hl
            exact hl
          rw [← hp2]
          exact hk p hpm
      dsimp only
      rw [foldl_pushMsg_nodup m _ hcl, foldl_pushMsg_nodup m _ hw]
      by_cases hmw : c ∈ st.wildcard_clients <;>
        by_cases hmc : c ∈ clients <;>
          simp [hmw, hmc]

end RouterSM

namespace RouterSM

theorem foldl_processMsg (st : RouterSM)
    (hw : st.wildcard_clients.Nodup)
    (hk : ∀ p ∈ st.symbol_to_clients, p.2.Nodup) (msgs : List UpEvent) :
    ∀ (cm : ClientId → Option (List UpEvent)) (c : ClientId),
      (msgs.foldl (processMsg st) cm) c =
        if msgs.flatMap (deliveries st c) = [] then cm c
        else some ((cm c).getD [] ++ msgs.flatMap (deliveries st c)) := by
  induction msgs with
  | nil => intro cm c; simp
  | cons m msgs ih =>
    intro cm c
    rw [List.foldl_cons, ih, List.flatMap_cons]
    have hpm := processMsg_apply st m hw hk cm c
    by_cases hd : deliveries st c m = []
    · rw [if_pos hd] at hpm
      rw [hpm, hd, List.nil_append]
    · rw [if_neg hd] at hpm
      rw [hpm]
      have hflatne :
          deliveries st c m ++ msgs.flatMap (deliveries st c) ≠ [] := by
        intro hcontra
        exact hd (List.append_eq_nil.mp hcontra).1
      rw [if_neg hflatne]
      by_cases hf : msgs.flatMap (deliveries st c) = []
      · rw [if_pos hf, hf, List.append_nil]
      · rw [if_neg hf]
        simp [List.append_assoc]

end RouterSM

/-- **C1.** For an upstream batch that parses as a JSON array, a client's
entry in the map returned by `get_filtered_messages_per_client` is
exactly the in-order subsequence of deliveries: an event with both `sym`
and `ev` string fields goes to every wildcard client and to every client
subscribed to the key `ev ++ "." ++ sym`, and to no one else; an event
lacking `sym` or `ev` goes to wildcard clients only; a client whose
filtered sequence is empty is omitted (`none`); intra-batch order is
preserved.  The `Nodup` hypotheses say the client sets are sets, as the
Rust `HashSet`s guarantee. -/
theorem RouterSM.get_filtered_messages_per_client_spec (st : RouterSM)
    (msgs : List UpEvent) (c : ClientId)
    (hw : st.wildcard_clients.Nodup)
    (hk : ∀ p ∈ st.symbol_to_clients, p.2.Nodup) :
    st.get_filtered_messages_per_client msgs c =
      if msgs.flatMap (deliveries st c) = [] then none
      else some (msgs.flatMap (deliveries st c)) := by
  simp only [get_filtered_messages_per_client]
  rw [foldl_processMsg st hw hk msgs]
  by_cases hf : msgs.flatMap (deliveries st c) = []
  · rw [if_pos hf, if_pos hf]
    by_cases hmem : c ∈ st.wildcard_clients <;> simp [hmem]
  · rw [if_neg hf, if_neg hf]
    rcases hfl : msgs.flatMap (deliveries st c) with _ | ⟨d, ds⟩
    · exact absurd hfl hf
    · by_cases hmem : c ∈ st.wildcard_clients <;> simp [hmem]

/-- Witness for C1 at a concrete state and batch: client 2 is subscribed
to `T.AAPL`, client 1 is a wildcard client; a two-event batch is
filtered for client 2. -/
theorem RouterSM.get_filtered_messages_per_client_spec_witness :
    RouterSM.get_filtered_messages_per_client
      { client_subs := []
        wildcard_clients := [1]
        symbol_to_clients := [("T.AAPL", [2])]
        pending_unsubs := [] }
      [⟨some "T", some "AAPL", 0⟩, ⟨none, some "MSFT", 1⟩] 2 =
      some [⟨some "T", some "AAPL", 0⟩] := by
  have h := RouterSM.get_filtered_messages_per_client_spec
    { client_subs := []
      wildcard_clients := [1]
      symbol_to_clients := [("T.AAPL", [2])]
      pending_unsubs := [] }
    [⟨some "T", some "AAPL", 0⟩, ⟨none, some "MSFT", 1⟩] 2
    (by decide) (by decide)
  exact h.trans (by decide)

/-! ## Upstream subscription split (C3)

`get_firehose_subscription` / `get_ms_aggregator_subscription` from
`filtered-proxy/src/subscription_manager.rs`.  The classifier
`is_bar_subscription` lives in `filtered-proxy/src/types.rs`, which is
not part of the source tree here, so it is modelled from the spec. -/

/-- Modelled from the spec: `is_bar_subscription` is defined in
`src/polygon_proxy/filtered-proxy/src/types.rs`, which is missing from
the sources; per the spec, "a key is a bar subscription iff its type is
`A`, `AM`, or matches `<digits>Ms`", the type being the portion of the
key before the first `.`.  This helper recognizes `<digits>Ms` (one or
more digits followed by `Ms`). -/
def isDigitsMs (ty : List Char) : Bool :=
  match ty.reverse with
  | 's' :: 'M' :: revDigits => !revDigits.isEmpty && revDigits.all (·.isDigit)
  | _ => false

/-- The `TYPE` component of a `TYPE.SYMBOL` subscription key: the
characters before the first `.` (the whole key if it has no `.`). -/
def keyType (key : String) : List Char :=
  key.data.takeWhile (fun c => decide (c ≠ '.'))

/-- Modelled from the spec: `is_bar_subscription` from the missing
`filtered-proxy/src/types.rs` — a key is a bar subscription iff its type
is `A`, `AM`, or `<digits>Ms`. -/
def is_bar_subscription (key : String) : Bool :=
  keyType key = ['A'] || keyType key = ['A', 'M'] || isDigitsMs (keyType key)

namespace RouterSM

/-- `SubscriptionManager::get_firehose_subscription`. -/
def get_firehose_subscription (st : RouterSM) : String :=
  if !st.wildcard_clients.isEmpty then
    "T.*,Q.*,LULD.*,FMV.*"
  else
    String.intercalate ","
      ((st.symbol_to_clients.map (·.1)).filter
        (fun s => !is_bar_subscription s))

/-- `SubscriptionManager::get_ms_aggregator_subscription`. -/
def get_ms_aggregator_subscription (st : RouterSM) : String :=
  if !st.wildcard_clients.isEmpty then
    "A.*,AM.*"
  else
    String.intercalate ","
      ((st.symbol_to_clients.map (·.1)).filter is_bar_subscription)

end RouterSM

theorem isDigitsMs_iff (ty : List Char) :
    isDigitsMs ty = true ↔
      ∃ ds : List Char, ds ≠ [] ∧ (∀ c ∈ ds, c.isDigit) ∧
        ty = ds ++ ['M', 's'] := by
  constructor
  · intro h
    unfold isDigitsMs at h
    rcases hrev : ty.reverse with _ | ⟨c1, rest⟩
    · rw [hrev] at h
      simp at h
    · rcases rest with _ | ⟨c2, revDigits⟩
      · rw [hrev] at h
        have : ty = [c1] := by
          have := congrArg List.reverse hrev
          simpa using this
        subst this
        by_cases h1 : c1 = 's' <;> simp [h1] at h
      · rw [hrev] at h
        have hty : ty = revDigits.reverse ++ [c2, c1] := by
          have := congrArg List.reverse hrev
          simpa using this
        by_cases h1 : c1 = 's'
        · by_cases h2 : c2 = 'M'
          · subst h1; subst h2
            simp only [Bool.and_eq_true, Bool.not_eq_true', List.all_eq_true] at h
            refine ⟨revDigits.reverse, ?_, ?_, hty⟩
            · intro hcon
              rw [List.reverse_eq_nil_iff] at hcon
              subst hcon
              simp at h
            · intro c hc
              exact h.2 c (List.mem_reverse.mp hc)
          · simp [h1, h2] at h
        · simp [h1] at h
  · rintro ⟨ds, hne, hdig, rfl⟩
    unfold isDigitsMs
    rw [List.reverse_append]
    simp only [List.reverse_cons, List.reverse_nil, List.nil_append,
      List.cons_append, List.singleton_append]
    simp only [Bool.and_eq_true, Bool.not_eq_true', List.all_eq_true]
    constructor
    · simp [List.isEmpty_iff, hne]
    · intro c hc
      exact hdig c (List.mem_reverse.mp hc)

/-- **C3.** Whenever a wildcard client exists, the firehose upstream
subscription is exactly `"T.*,Q.*,LULD.*,FMV.*"` and the bar-aggregator
upstream subscription exactly `"A.*,AM.*"` (no `<N>Ms` wildcard is
implied); with no wildcard client each returns the comma-joined keys of
its partition, a key counting as a bar subscription iff its type is `A`,
`AM`, or digits followed by `Ms`. -/
theorem RouterSM.subscription_split_spec (st : RouterSM) :
    (st.wildcard_clients ≠ [] →
      st.get_firehose_subscription = "T.*,Q.*,LULD.*,FMV.*" ∧
        st.get_ms_aggregator_subscription = "A.*,AM.*") ∧
    (st.wildcard_clients = [] →
      st.get_firehose_subscription =
        String.intercalate ","
          ((st.symbol_to_clients.map (·.1)).filter
            (fun k => !is_bar_subscription k)) ∧
      st.get_ms_aggregator_subscription =
        String.intercalate ","
          ((st.symbol_to_clients.map (·.1)).filter is_bar_subscription)) ∧
    (∀ k : String, is_bar_subscription k = true ↔
      (keyType k = ['A'] ∨ keyType k = ['A', 'M'] ∨
        ∃ ds : List Char, ds ≠ [] ∧ (∀ c ∈ ds, c.isDigit) ∧
          keyType k = ds ++ ['M', 's'])) := by
  refine ⟨?_, ?_, ?_⟩
  · intro hne
    have hw : st.wildcard_clients.isEmpty = false := by
      rcases hl : st.wildcard_clients with _ | _
      · exact absurd hl hne
      · rfl
    constructor
    · simp [get_firehose_subscription, hw]
    · simp [get_ms_aggregator_subscription, hw]
  · intro heq
    have hw : st.wildcard_clients.isEmpty = true := by
      rw [heq]; rfl
    constructor
    · simp [get_firehose_subscription, hw]
    · simp [get_ms_aggregator_subscription, hw]
  · intro k
    unfold is_bar_subscription
    simp only [Bool.or_eq_true, decide_eq_true_eq, isDigitsMs_iff]
    tauto

/-- Witness for C3: a wildcard state yields the fixed firehose string; a
wildcard-free state yields the comma-joined bar keys. -/
theorem RouterSM.subscription_split_spec_witness :
    RouterSM.get_firehose_subscription
        { client_subs := []
          wildcard_clients := [1]
          symbol_to_clients := []
          pending_unsubs := [] } = "T.*,Q.*,LULD.*,FMV.*" ∧
      RouterSM.get_ms_aggregator_subscription
        { client_subs := []
          wildcard_clients := []
          symbol_to_clients :=
            [("T.AAPL", [1]), ("A.AAPL", [1]), ("100Ms.SPY", [1])]
          pending_unsubs := [] } = "A.AAPL,100Ms.SPY" := by
  constructor
  · exact ((RouterSM.subscription_split_spec
      { client_subs := []
        wildcard_clients := [1]
        symbol_to_clients := []
        pending_unsubs := [] }).1 (by decide)).1
  · exact (((RouterSM.subscription_split_spec
      { client_subs := []
        wildcard_clients := []
        symbol_to_clients :=
          [("T.AAPL", [1]), ("A.AAPL", [1]), ("100Ms.SPY", [1])]
        pending_unsubs := [] }).2.1 rfl).2).trans (by decide)

/-! ## Association-list lemmas -/

theorem lookupA_entryUpdate_ne {α β : Type} [DecidableEq α]
    (m : List (α × β)) (k k2 : α) (d : β) (f : β → β) (h : k2 ≠ k) :
    lookupA (entryUpdate m k d f) k2 = lookupA m k2 := by
  induction m with
  | nil =>
    simp [entryUpdate, lookupA, List.find?, Ne.symm h]
  | cons a m ih =>
    rcases a with ⟨a1, a2⟩
    by_cases hk : a1 = k
    · subst hk
      simp only [entryUpdate, if_pos rfl]
      by_cases hk2 : a1 = k2
      · exact absurd (hk2.symm) h
      · simp [lookupA, List.find?, hk2]
    · simp only [entryUpdate, if_neg hk]
      by_cases hk2 : a1 = k2
      · simp [lookupA, List.find?, hk2]
      · simp only [lookupA, List.find?] at ih ⊢
        simp [hk2, ih]

theorem lookupA_mapSet_ne {α β : Type} [DecidableEq α]
    (m : List (α × β)) (k k2 : α) (v : β) (h : k2 ≠ k) :
    lookupA (mapSet m k v) k2 = lookupA m k2 := by
  induction m with
  | nil =>
    simp [mapSet, lookupA, List.find?, Ne.symm h]
  | cons a m ih =>
    rcases a with ⟨a1, a2⟩
    by_cases hk : a1 = k
    · subst hk
      simp only [mapSet, if_pos rfl]
      by_cases hk2 : a1 = k2
      · exact absurd (hk2.symm) h
      · simp [lookupA, List.find?, hk2]
    · simp only [mapSet, if_neg hk]
      by_cases hk2 : a1 = k2
      · simp [lookupA, List.find?, hk2]
      · simp only [lookupA, List.find?] at ih ⊢
        simp [hk2, ih]

theorem lookupA_mapSet_self {α β : Type} [DecidableEq α]
    (m : List (α × β)) (k : α) (v : β) :
    lookupA (mapSet m k v) k = some v := by
  induction m with
  | nil => simp [mapSet, lookupA, List.find?]
  | cons a m ih =>
    rcases a with ⟨a1, a2⟩
    by_cases hk : a1 = k
    · subst hk
      simp [mapSet, lookupA, List.find?]
    · simp only [mapSet, if_neg hk]
      simp only [lookupA, List.find?] at ih ⊢
      simp [hk, ih]

theorem mem_mapRemove {α β : Type} [DecidableEq α]
    {m : List (α × β)} {k0 : α} {p : α × β} (h : p ∈ mapRemove m k0) :
    p.1 ≠ k0 ∧ p ∈ m := by
  rw [mapRemove, List.mem_filter] at h
  exact ⟨by simpa using h.2, h.1⟩

theorem mem_mapSet {α β : Type} [DecidableEq α]
    {m : List (α × β)} {k : α} {v : β} {p : α × β}
    (h : p ∈ mapSet m k v) : p = (k, v) ∨ p ∈ m := by
  induction m with
  | nil =>
    simp [mapSet] at h
    exact Or.inl h
  | cons a m ih =>
    rcases a with ⟨a1, a2⟩
    by_cases hk : a1 = k
    · subst hk
      rw [show mapSet ((a1, a2) :: m) a1 v = (a1, v) :: m from by
        simp [mapSet]] at h
      rcases List.mem_cons.mp h with h1 | h1
      · exact Or.inl h1
      · exact Or.inr (List.mem_cons_of_mem _ h1)
    · rw [show mapSet ((a1, a2) :: m) k v = (a1, a2) :: mapSet m k v from by
        simp [mapSet, hk]] at h
      rcases List.mem_cons.mp h with h1 | h1
      · exact Or.inr (by simp [h1])
      · rcases ih h1 with h2 | h2
        · exact Or.inl h2
        · exact Or.inr (List.mem_cons_of_mem _ h2)

/-- Fold preservation of a state predicate. -/
theorem foldl_preserve {σ α : Type} (P : σ → Prop) (f : σ → α → σ)
    (hstep : ∀ s a, P s → P (f s a)) :
    ∀ (l : List α) (s : σ), P s → P (l.foldl f s) := by
  intro l
  induction l with
  | nil => intro s hs; exact hs
  | cons a l ih =>
    intro s hs
    exact ih (f s a) (hstep s a hs)

/-! ## Router operations and the pending-unsubscribe invariant (C4) -/

/-- The mutating entry points of the router-side `SubscriptionManager`. -/
inductive RouterOp where
  | add (c : ClientId) (params : String)
  | remove (c : ClientId) (params : String) (now : Nat)
  | removeClient (c : ClientId) (now : Nat)
  | cleanup (now : Nat)
deriving Repr

/-- Apply one operation (the router keeps only the state part of
`cleanup_pending_unsubs`). -/
def applyRouterOp (st : RouterSM) : RouterOp → RouterSM
  | RouterOp.add c params => st.add_subscription c params
  | RouterOp.remove c params now => st.remove_subscription c params now
  | RouterOp.removeClient c now => st.remove_client c now
  | RouterOp.cleanup now => (st.cleanup_pending_unsubs now).2

/-- All states reachable from the fresh manager by a call sequence. -/
def runRouterOps (ops : List RouterOp) : RouterSM :=
  ops.foldl applyRouterOp RouterSM.new

/-- Every key in `pending_unsubs` has no specific subscriber. -/
def PendingInv (st : RouterSM) : Prop :=
  ∀ k t, (k, t) ∈ st.pending_unsubs →
    lookupA st.symbol_to_clients k = none ∨
      lookupA st.symbol_to_clients k = some []

theorem pendingInv_add_step (c : ClientId) (st : RouterSM) (symbol : String)
    (h : PendingInv st) :
    PendingInv (RouterSM.add_subscription_step c st symbol) := by
  intro k t hmem
  unfold RouterSM.add_subscription_step at hmem ⊢
  by_cases hstar : symbol = "*"
  · simp only [if_pos hstar] at hmem ⊢
    obtain ⟨hne, hold⟩ := mem_mapRemove hmem
    exact h k t hold
  · simp only [if_neg hstar] at hmem ⊢
    obtain ⟨hne, hold⟩ := mem_mapRemove hmem
    rw [lookupA_entryUpdate_ne _ _ _ _ _ hne]
    exact h k t hold

theorem pendingInv_drop_step (c : ClientId) (now : Nat) (st : RouterSM)
    (symbol : String) (h : PendingInv st) :
    PendingInv (RouterSM.drop_symbol_step c now st symbol) := by
  intro k t hmem
  by_cases hstar : symbol = "*"
  · have hstep : RouterSM.drop_symbol_step c now st symbol =
        { st with wildcard_clients := setRemove st.wildcard_clients c } := by
      unfold RouterSM.drop_symbol_step
      rw [if_pos hstar]
    rw [hstep] at hmem ⊢
    exact h k t hmem
  · rcases hl : lookupA st.symbol_to_clients symbol with _ | clients
    · have hstep : RouterSM.drop_symbol_step c now st symbol = st := by
        unfold RouterSM.drop_symbol_step
        rw [if_neg hstar, hl]
      rw [hstep] at hmem ⊢
      exact h k t hmem
    · have hstep : RouterSM.drop_symbol_step c now st symbol =
          (if (setRemove clients c).isEmpty && st.wildcard_clients.isEmpty
            then
              { st with
                symbol_to_clients :=
                  mapSet st.symbol_to_clients symbol (setRemove clients c)
                pending_unsubs := mapSet st.pending_unsubs symbol now }
            else
              { st with
                symbol_to_clients :=
                  mapSet st.symbol_to_clients symbol (setRemove clients c) }) := by
        unfold RouterSM.drop_symbol_step
        rw [if_neg hstar, hl]
      rw [hstep] at hmem ⊢
      by_cases hcond :
          ((setRemove clients c).isEmpty && st.wildcard_clients.isEmpty) = true
      · rw [if_pos hcond] at hmem ⊢
        dsimp only at hmem ⊢
        have hempty : setRemove clients c = [] :=
          List.isEmpty_iff.mp ((Bool.and_eq_true _ _).mp hcond).1
        by_cases hk : k = symbol
        · subst hk
          rw [lookupA_mapSet_self, hempty]
          exact Or.inr rfl
        · rw [lookupA_mapSet_ne _ _ _ _ hk]
          rcases mem_mapSet hmem with heq | hold
          · exact absurd (congrArg Prod.fst heq) hk
          · exact h k t hold
      · rw [if_neg hcond] at hmem ⊢
        dsimp only at hmem ⊢
        by_cases hk : k = symbol
        · subst hk
          rcases h k t hmem with hn | he
          · rw [hl] at hn
            exact absurd hn (by simp)
          · rw [hl] at he
            have hclients : clients = [] := by
              injection he
            rw [lookupA_mapSet_self, hclients]
            exact Or.inr rfl
        · rw [lookupA_mapSet_ne _ _ _ _ hk]
          exact h k t hmem

theorem pendingInv_remove_step (c : ClientId) (now : Nat) (st : RouterSM)
    (symbol : String) (h : PendingInv st) :
    PendingInv (RouterSM.remove_subscription_step c now st symbol) := by
  have h1 := pendingInv_drop_step c now st symbol h
  have hpend : (RouterSM.remove_subscription_step c now st symbol).pending_unsubs =
      (RouterSM.drop_symbol_step c now st symbol).pending_unsubs := by
    simp only [RouterSM.remove_subscription_step]
    rcases lookupA (RouterSM.drop_symbol_step c now st symbol).client_subs c
      with _ | subs <;> rfl
  have hsym : (RouterSM.remove_subscription_step c now st symbol).symbol_to_clients =
      (RouterSM.drop_symbol_step c now st symbol).symbol_to_clients := by
    simp only [RouterSM.remove_subscription_step]
    rcases lookupA (RouterSM.drop_symbol_step c now st symbol).client_subs c
      with _ | subs <;> rfl
  intro k t hmem
  rw [hpend] at hmem
  rw [hsym]
  exact h1 k t hmem

theorem pendingInv_apply (st : RouterSM) (op : RouterOp)
    (h : PendingInv st) : PendingInv (applyRouterOp st op) := by
  rcases op with ⟨c, params⟩ | ⟨c, params, now⟩ | ⟨c, now⟩ | now
  · exact foldl_preserve PendingInv _
      (fun s a hs => pendingInv_add_step c s a hs) _ st h
  · exact foldl_preserve PendingInv _
      (fun s a hs => pendingInv_remove_step c now s a hs) _ st h
  · show PendingInv (st.remove_client c now)
    unfold RouterSM.remove_client
    rcases hl : lookupA st.client_subs c with _ | subs
    · exact h
    · dsimp only
      refine foldl_preserve PendingInv _
        (fun s a hs => pendingInv_drop_step c now s a hs) _ _ ?_
      intro k t hmem
      exact h k t hmem
  · show PendingInv (st.cleanup_pending_unsubs now).2
    intro k t hmem
    unfold RouterSM.cleanup_pending_unsubs at hmem
    dsimp only at hmem
    exact h k t (List.mem_filter.mp hmem).1

/-- **C4** (amended): in every state of the router-side
`SubscriptionManager` reachable by `add_subscription`,
`remove_subscription`, `remove_client` and `cleanup_pending_unsubs`, a
key in `pending_unsubs` has no specific subscriber (its `key_to_clients`
entry is absent or empty).  The converse direction of the original
claim, and its wildcard condition, are refuted by
`RouterSM.pending_wildcard_counterexample`. -/
theorem RouterSM.pending_unsubs_inv (ops : List RouterOp) (k : String)
    (t : Nat) (hmem : (k, t) ∈ (runRouterOps ops).pending_unsubs) :
    lookupA (runRouterOps ops).symbol_to_clients k = none ∨
      lookupA (runRouterOps ops).symbol_to_clients k = some [] := by
  have hinv : PendingInv (runRouterOps ops) := by
    refine foldl_preserve PendingInv applyRouterOp pendingInv_apply ops
      RouterSM.new ?_
    intro k2 t2 hmem2
    simp [RouterSM.new] at hmem2
  exact hinv k t hmem

/-- Witness for C4 (amended): after subscribe + unsubscribe of `T.AAPL`,
the key is pending and its subscriber entry is empty. -/
theorem RouterSM.pending_unsubs_inv_witness :
    lookupA (runRouterOps
        [RouterOp.add 1 "T.AAPL",
          RouterOp.remove 1 "T.AAPL" 0]).symbol_to_clients "T.AAPL" =
        none ∨
      lookupA (runRouterOps
        [RouterOp.add 1 "T.AAPL",
          RouterOp.remove 1 "T.AAPL" 0]).symbol_to_clients "T.AAPL" =
        some [] :=
  RouterSM.pending_unsubs_inv
    [RouterOp.add 1 "T.AAPL", RouterOp.remove 1 "T.AAPL" 0]
    "T.AAPL" 0 (by decide)

/-- Counterexample to C4 as stated: after client 1 subscribes and
unsubscribes `T.AAPL` (scheduling it in `pending_unsubs`) and client 2
then subscribes the global wildcard, the key remains pending while
`wildcard_clients` is non-empty — the claimed "iff" fails. -/
theorem RouterSM.pending_wildcard_counterexample :
    ("T.AAPL", 0) ∈
        (runRouterOps
          [RouterOp.add 1 "T.AAPL", RouterOp.remove 1 "T.AAPL" 0,
            RouterOp.add 2 "*"]).pending_unsubs ∧
      (runRouterOps
          [RouterOp.add 1 "T.AAPL", RouterOp.remove 1 "T.AAPL" 0,
            RouterOp.add 2 "*"]).wildcard_clients ≠ [] := by
  decide

/-! ## Embedding of `polygon_proxy/ms-aggregator/src/types.rs`:
`parse_ms_subscription` and its string helpers -/

/-- Rust `u64::from_str` on a character list: optional leading `+`, at
least one digit, all digits, value within `u64` (overflow fails). -/
def parseU64 (l : List Char) : Option Nat :=
  let digits := if l.head? = some '+' then l.tail else l
  if digits.isEmpty then none
  else if digits.all (·.isDigit) then
    let v := digits.foldl (fun acc c => acc * 10 + (c.toNat - 48)) 0
    if v < u64Mod then some v else none
  else none

/-- One step of Rust `trim_end_matches("Ms")` on the reversed character
list: repeatedly strip a trailing `Ms`. -/
def stripRevMs : List Char → List Char
  | c1 :: c2 :: rest =>
    if c1 = 's' ∧ c2 = 'M' then stripRevMs rest else c1 :: c2 :: rest
  | l => l

/-- Rust `str::trim_end_matches("Ms")` (removes every trailing `Ms`). -/
def trimEndMatchesMs (l : List Char) : List Char :=
  (stripRevMs l.reverse).reverse

/-- Rust `str::ends_with("Ms")`. -/
def endsWithMs (l : List Char) : Bool :=
  match l.reverse with
  | c1 :: c2 :: _ => c1 = 's' && c2 = 'M'
  | _ => false

/-- `BarSubscription` from `types.rs`. -/
structure BarSubscription where
  interval_ms : Nat
  symbol : String
deriving DecidableEq, Repr

/-- `parse_ms_subscription` from `types.rs`: `"100Ms.AAPL"`-style keys;
exactly two `.`-separated parts, the first `<digits>Ms`, interval within
the hard-coded `[1, 60000]`. -/
def parse_ms_subscription (sub : String) : Option BarSubscription :=
  match splitOnChar '.' sub.data with
  | [interval_str, symbol] =>
    if !endsWithMs interval_str then none
    else
      match parseU64 (trimEndMatchesMs interval_str) with
      | none => none
      | some interval_ms =>
        if interval_ms < 1 ∨ interval_ms > 60000 then none
        else some { interval_ms := interval_ms, symbol := String.mk symbol }
  | _ => none

/-! ## Embedding of `polygon_proxy/ms-aggregator/src/subscription_manager.rs` -/

/-- `BarKey` from `types.rs`. -/
structure BarKey where
  symbol : String
  interval_ms : Nat
deriving DecidableEq, Repr

/-- Aggregator-side `SubscriptionManager` state (the `DashMap`s as
association lists; the trade buffer is modelled separately). -/
structure AggSM where
  aggregators : List (BarKey × BarAggregator)
  client_subscriptions : List (ClientId × List BarKey)
  key_to_clients : List (BarKey × List ClientId)
  wildcard_subscriptions : List (ClientId × List Nat)
  min_interval_ms : Nat
  max_interval_ms : Nat
  bar_delay_ms : Nat
deriving DecidableEq, Repr

/-- The comma-split, trimmed items of a `params` string
(`params.split(',').map(|s| s.trim())`). -/
def subItems (params : String) : List String :=
  (splitOnChar ',' params.data).map (fun l => String.mk (trimChars l))

/-- `format!("Interval {}ms out of range ({}-{} ms)", ...)`. -/
def intervalRangeError (interval_ms minI maxI : Nat) : String :=
  "Interval " ++ toString interval_ms ++ "ms out of range (" ++
    toString minI ++ "-" ++ toString maxI ++ " ms)"

/-- `format!("Invalid subscription format: {}", sub)`. -/
def invalidFormatError (sub : String) : String :=
  "Invalid subscription format: " ++ sub

namespace AggSM

/-- `SubscriptionManager::new`. -/
def new (min_interval_ms max_interval_ms bar_delay_ms : Nat) : AggSM :=
  { aggregators := []
    client_subscriptions := []
    key_to_clients := []
    wildcard_subscriptions := []
    min_interval_ms := min_interval_ms
    max_interval_ms := max_interval_ms
    bar_delay_ms := bar_delay_ms }

/-- Body of the per-item loop of `subscribe`: accumulator is
`(state, subscribed, errors)`. -/
def subscribe_step (client_id : ClientId) (now : Nat)
    (acc : AggSM × List String × List String) (sub : String) :
    AggSM × List String × List String :=
  let (st, subscribed, errors) := acc
  match parse_ms_subscription sub with
  | some bar_sub =>
    if bar_sub.interval_ms < st.min_interval_ms ∨
        st.max_interval_ms < bar_sub.interval_ms then
      (st, subscribed,
        errors ++ [intervalRangeError bar_sub.interval_ms
          st.min_interval_ms st.max_interval_ms])
    else if bar_sub.symbol = "*" then
      ({ st with
          wildcard_subscriptions :=
            entryUpdate st.wildcard_subscriptions client_id []
              (fun s => setInsert s bar_sub.interval_ms) },
        subscribed ++ [sub], errors)
    else
      let key : BarKey :=
        { symbol := bar_sub.symbol, interval_ms := bar_sub.interval_ms }
      let st :=
        { st with
          aggregators :=
            entryUpdate st.aggregators key
              (BarAggregator.new key.symbol key.interval_ms now)
              (fun a => a) }
      let st :=
        { st with
          client_subscriptions :=
            entryUpdate st.client_subscriptions client_id []
              (fun ks => setInsert ks key) }
      let st :=
        { st with
          key_to_clients :=
            entryUpdate st.key_to_clients key []
              (fun cs => setInsert cs client_id) }
      (st, subscribed ++ [sub], errors)
  | none => (st, subscribed, errors ++ [invalidFormatError sub])

/-- `SubscriptionManager::subscribe` (wall clock explicit; returns the
new state and `Result<Vec<String>, String>`). -/
def subscribe (st : AggSM) (client_id : ClientId) (params : String)
    (now : Nat) : AggSM × Except String (List String) :=
  let acc := (subItems params).foldl (subscribe_step client_id now)
    (st, [], [])
  if !acc.2.2.isEmpty then
    (acc.1, Except.error (String.intercalate "; " acc.2.2))
  else
    (acc.1, Except.ok acc.2.1)

/-- Shared tail of the per-key removal in `unsubscribe` and
`remove_client`: drop the client from `key_to_clients[key]`, and when
the set becomes empty remove the entry and the aggregator. -/
def remove_key_step (client_id : ClientId) (st : AggSM) (key : BarKey) :
    AggSM :=
  match lookupA st.key_to_clients key with
  | some clients =>
    let clients := setRemove clients client_id
    if clients.isEmpty then
      { st with
        key_to_clients := mapRemove st.key_to_clients key
        aggregators := mapRemove st.aggregators key }
    else
      { st with key_to_clients := mapSet st.key_to_clients key clients }
  | none => st

/-- Body of the per-item loop of `unsubscribe`. -/
def unsubscribe_step (client_id : ClientId) (st : AggSM) (sub : String) :
    AggSM :=
  match parse_ms_subscription sub with
  | none => st
  | some bar_sub =>
    if bar_sub.symbol = "*" then
      match lookupA st.wildcard_subscriptions client_id with
      | some wildcards =>
        { st with
          wildcard_subscriptions :=
            mapSet st.wildcard_subscriptions client_id
              (setRemove wildcards bar_sub.interval_ms) }
      | none => st
    else
      let key : BarKey :=
        { symbol := bar_sub.symbol, interval_ms := bar_sub.interval_ms }
      let st :=
        match lookupA st.client_subscriptions client_id with
        | some subs =>
          { st with
            client_subscriptions :=
              mapSet st.client_subscriptions client_id
                (setRemove subs key) }
        | none => st
      remove_key_step client_id st key

/-- `SubscriptionManager::unsubscribe` (always returns `Ok(())`, so only
the state is modelled). -/
def unsubscribe (st : AggSM) (client_id : ClientId) (params : String) :
    AggSM :=
  (subItems params).foldl (unsubscribe_step client_id) st

/-- `SubscriptionManager::remove_client`. -/
def remove_client (st : AggSM) (client_id : ClientId) : AggSM :=
  let st :=
    match lookupA st.client_subscriptions client_id with
    | some keys =>
      let st :=
        { st with
          client_subscriptions :=
            mapRemove st.client_subscriptions client_id }
      keys.foldl (remove_key_step client_id) st
    | none => st
  { st with
    wildcard_subscriptions :=
      mapRemove st.wildcard_subscriptions client_id }

end AggSM

/-- Specification-side per-item validation of `subscribe`: the error the
loop records for an item, if any (format error when the item does not
parse, range error when the parsed interval falls outside the configured
bounds). -/
def itemError (minI maxI : Nat) (sub : String) : Option String :=
  match parse_ms_subscription sub with
  | none => some (invalidFormatError sub)
  | some bar_sub =>
    if bar_sub.interval_ms < minI ∨ maxI < bar_sub.interval_ms then
      some (intervalRangeError bar_sub.interval_ms minI maxI)
    else none

namespace AggSM

theorem subscribe_step_bounds (c : ClientId) (now : Nat)
    (acc : AggSM × List String × List String) (sub : String) :
    (subscribe_step c now acc sub).1.min_interval_ms =
        acc.1.min_interval_ms ∧
      (subscribe_step c now acc sub).1.max_interval_ms =
        acc.1.max_interval_ms := by
  rcases acc with ⟨st, subscribed, errors⟩
  unfold subscribe_step
  rcases parse_ms_subscription sub with _ | b
  · exact ⟨rfl, rfl⟩
  · dsimp only
    split_ifs <;> exact ⟨rfl, rfl⟩

theorem subscribe_step_cases (c : ClientId) (now : Nat) (st : AggSM)
    (subscribed errors : List String) (sub : String) :
    subscribe_step c now (st, subscribed, errors) sub =
      match itemError st.min_interval_ms st.max_interval_ms sub with
      | some e => (st, subscribed, errors ++ [e])
      | none =>
        ((subscribe_step c now (st, [], []) sub).1,
          subscribed ++ [sub], errors) := by
  unfold subscribe_step itemError
  rcases parse_ms_subscription sub with _ | b
  · rfl
  · dsimp only
    split_ifs <;> rfl

theorem subscribe_step_state_of_invalid (c : ClientId) (now : Nat)
    (st : AggSM) (subscribed errors : List String) (sub : String) (e : String)
    (h : itemError st.min_interval_ms st.max_interval_ms sub = some e) :
    (subscribe_step c now (st, subscribed, errors) sub).1 = st := by
  rw [subscribe_step_cases, h]

theorem subscribe_foldl (c : ClientId) (now : Nat) (items : List String) :
    ∀ (st : AggSM) (subscribed errors : List String),
      items.foldl (subscribe_step c now) (st, subscribed, errors) =
        (items.foldl
            (fun s sub => (subscribe_step c now (s, [], []) sub).1) st,
          subscribed ++ items.filter
            (fun sub =>
              (itemError st.min_interval_ms st.max_interval_ms sub).isNone),
          errors ++ items.filterMap
            (itemError st.min_interval_ms st.max_interval_ms)) := by
  induction items with
  | nil => intro st subscribed errors; simp
  | cons sub items ih =>
    intro st subscribed errors
    rw [List.foldl_cons, subscribe_step_cases]
    rcases he : itemError st.min_interval_ms st.max_interval_ms sub
      with _ | e
    · dsimp only
      rw [ih]
      have hb := subscribe_step_bounds c now (st, [], []) sub
      rw [hb.1, hb.2]
      rw [List.filter_cons_of_pos (by rw [he]; rfl),
        List.filterMap_cons_none he, List.foldl_cons]
      simp [List.append_assoc]
    · dsimp only
      rw [ih]
      rw [List.filter_cons_of_neg (by simp [he]),
        List.filterMap_cons_some he, List.foldl_cons,
        subscribe_step_state_of_invalid c now st [] [] sub e he]
      simp [List.append_assoc]

end AggSM

theorem foldl_subscribe_state_filter (c : ClientId) (now : Nat)
    (items : List String) :
    ∀ (s : AggSM) (minI maxI : Nat),
      s.min_interval_ms = minI → s.max_interval_ms = maxI →
      items.foldl
          (fun s sub => (AggSM.subscribe_step c now (s, [], []) sub).1) s =
        (items.filter (fun sub => (itemError minI maxI sub).isNone)).foldl
          (fun s sub => (AggSM.subscribe_step c now (s, [], []) sub).1) s := by
  induction items with
  | nil => intros; rfl
  | cons sub items ih =>
    intro s minI maxI hmin hmax
    rcases he : itemError minI maxI sub with _ | e
    · rw [List.filter_cons_of_pos (by rw [he]; rfl), List.foldl_cons,
        List.foldl_cons]
      have hb := AggSM.subscribe_step_bounds c now (s, [], []) sub
      exact ih _ minI maxI (by rw [hb.1, hmin]) (by rw [hb.2, hmax])
    · rw [List.filter_cons_of_neg (by simp [he]), List.foldl_cons]
      rw [AggSM.subscribe_step_state_of_invalid c now s [] [] sub e
        (by rw [hmin, hmax]; exact he)]
      exact ih s minI maxI hmin hmax

/-- **C8.** `subscribe` applies exactly the valid items (in order) to the
state — also when other items are invalid — and returns `Err` with the
accumulated per-item error messages (joined by `"; "`) iff at least one
item is invalid, `Ok` with the subscribed items otherwise.  Validity of
an item and its error message are given by `itemError`: a parse failure
is a format error, an interval outside the configured bounds a range
error. -/
theorem AggSM.subscribe_spec (st : AggSM) (c : ClientId) (params : String)
    (now : Nat) :
    ((st.subscribe c params now).1 =
        ((subItems params).filter
            (fun sub =>
              (itemError st.min_interval_ms st.max_interval_ms
                sub).isNone)).foldl
          (fun s sub => (AggSM.subscribe_step c now (s, [], []) sub).1)
          st) ∧
    ((subItems params).filterMap
          (itemError st.min_interval_ms st.max_interval_ms) = [] →
      (st.subscribe c params now).2 =
        Except.ok ((subItems params).filter
          (fun sub =>
            (itemError st.min_interval_ms st.max_interval_ms
              sub).isNone))) ∧
    ((subItems params).filterMap
          (itemError st.min_interval_ms st.max_interval_ms) ≠ [] →
      (st.subscribe c params now).2 =
        Except.error (String.intercalate "; "
          ((subItems params).filterMap
            (itemError st.min_interval_ms st.max_interval_ms)))) := by
  have hfold := AggSM.subscribe_foldl c now (subItems params) st [] []
  refine ⟨?_, ?_, ?_⟩
  · have h1 : (st.subscribe c params now).1 =
        ((subItems params).foldl (AggSM.subscribe_step c now)
          (st, [], [])).1 := by
      simp only [AggSM.subscribe]
      split <;> rfl
    rw [h1, hfold]
    exact foldl_subscribe_state_filter c now (subItems params) st _ _ rfl rfl
  · intro hnil
    simp only [AggSM.subscribe]
    rw [hfold]
    simp [hnil]
  · intro hne
    simp only [AggSM.subscribe]
    rw [hfold]
    simp [hne]

/-- Witness for C8: one valid and one malformed item; the valid one is
applied (an aggregator for `(AAPL, 100)` exists) and the call returns the
format error for the other. -/
theorem AggSM.subscribe_spec_witness :
    ((AggSM.new 1 60000 20).subscribe 7 "100Ms.AAPL,0Ms.AAPL" 0).2 =
      Except.error "Invalid subscription format: 0Ms.AAPL" := by
  have h := (AggSM.subscribe_spec (AggSM.new 1 60000 20) 7
    "100Ms.AAPL,0Ms.AAPL" 0).2.2 (by decide)
  exact h.trans (congrArg Except.error (by decide))

theorem lookupA_entryUpdate_self {α β : Type} [DecidableEq α]
    (m : List (α × β)) (k : α) (d : β) (f : β → β) :
    lookupA (entryUpdate m k d f) k = some (f ((lookupA m k).getD d)) := by
  induction m with
  | nil => simp [entryUpdate, lookupA, List.find?]
  | cons a m ih =>
    rcases a with ⟨a1, a2⟩
    by_cases hk : a1 = k
    · subst hk
      simp [entryUpdate, lookupA, List.find?]
    · simp only [entryUpdate, if_neg hk]
      simp only [lookupA, List.find?] at ih ⊢
      simp [hk, ih]

theorem lookupA_mapRemove_self {α β : Type} [DecidableEq α]
    (m : List (α × β)) (k : α) : lookupA (mapRemove m k) k = none := by
  rcases h : List.find? (fun p => decide (p.1 = k)) (mapRemove m k)
    with _ | p
  · simp [lookupA, h]
  · have hmem := List.mem_of_find?_eq_some h
    have hp := List.find?_some h
    have hne := (mem_mapRemove hmem).1
    simp only [decide_eq_true_eq] at hp
    exact absurd hp hne

theorem lookupA_mapRemove_ne {α β : Type} [DecidableEq α]
    (m : List (α × β)) (k k2 : α) (h : k2 ≠ k) :
    lookupA (mapRemove m k) k2 = lookupA m k2 := by
  induction m with
  | nil => rfl
  | cons a m ih =>
    rcases a with ⟨a1, a2⟩
    by_cases hk : a1 = k
    · subst hk
      have : mapRemove ((a1, a2) :: m) a1 = mapRemove m a1 := by
        simp [mapRemove]
      rw [this, ih]
      have hne : ¬ a1 = k2 := fun hc => h (hc.symm)
      simp [lookupA, List.find?, hne]
    · have : mapRemove ((a1, a2) :: m) k = (a1, a2) :: mapRemove m k := by
        simp [mapRemove, hk]
      rw [this]
      by_cases hk2 : a1 = k2
      · simp [lookupA, List.find?, hk2]
      · simp only [lookupA, List.find?] at ih ⊢
        simp [hk2, ih]

theorem setInsert_ne_nil {α : Type} [DecidableEq α] (l : List α) (x : α) :
    setInsert l x ≠ [] := by
  unfold setInsert
  split
  · rename_i hmem
    intro hnil
    rw [hnil] at hmem
    simp at hmem
  · simp

/-- The aggregator for a bar key exists iff the key has at least one
specific subscriber. -/
def AggInv (st : AggSM) : Prop :=
  ∀ k : BarKey,
    (lookupA st.aggregators k).isSome ↔
      ∃ cs, lookupA st.key_to_clients k = some cs ∧ cs ≠ []

namespace AggSM

theorem aggInv_subscribe_step (c : ClientId) (now : Nat) (st : AggSM)
    (subscribed errors : List String) (sub : String) (h : AggInv st) :
    AggInv (subscribe_step c now (st, subscribed, errors) sub).1 := by
  unfold subscribe_step
  rcases parse_ms_subscription sub with _ | b
  · exact h
  · dsimp only
    split_ifs with h1 h2
    · exact h
    · exact h
    · intro k
      by_cases hk : k = (⟨b.symbol, b.interval_ms⟩ : BarKey)
      · subst hk
        constructor
        · intro _
          exact ⟨setInsert ((lookupA st.key_to_clients
              (⟨b.symbol, b.interval_ms⟩ : BarKey)).getD []) c,
            lookupA_entryUpdate_self _ _ _ _, setInsert_ne_nil _ _⟩
        · intro _
          rw [lookupA_entryUpdate_self]
          rfl
      · rw [lookupA_entryUpdate_ne _ _ _ _ _ hk,
          lookupA_entryUpdate_ne _ _ _ _ _ hk]
        exact h k

theorem aggInv_remove_key_step (c : ClientId) (st : AggSM) (key : BarKey)
    (h : AggInv st) : AggInv (remove_key_step c st key) := by
  unfold remove_key_step
  rcases hl : lookupA st.key_to_clients key with _ | clients
  · exact h
  · dsimp only
    by_cases hcond : (setRemove clients c).isEmpty
    · rw [if_pos hcond]
      intro k
      by_cases hk : k = key
      · subst hk
        rw [lookupA_mapRemove_self, lookupA_mapRemove_self]
        simp
      · rw [lookupA_mapRemove_ne _ _ _ hk, lookupA_mapRemove_ne _ _ _ hk]
        exact h k
    · rw [if_neg hcond]
      intro k
      by_cases hk : k = key
      · rw [hk, lookupA_mapSet_self]
        constructor
        · intro _
          exact ⟨setRemove clients c, rfl, by
            intro hc
            exact hcond (by rw [hc]; rfl)⟩
        · intro _
          have hclne : clients ≠ [] := by
            intro hc
            subst hc
            exact hcond rfl
          exact (h key).mpr ⟨clients, hl, hclne⟩
      · rw [lookupA_mapSet_ne _ _ _ _ hk]
        exact h k

theorem aggInv_unsubscribe_step (c : ClientId) (st : AggSM) (sub : String)
    (h : AggInv st) : AggInv (unsubscribe_step c st sub) := by
  unfold unsubscribe_step
  rcases parse_ms_subscription sub with _ | b
  · exact h
  · dsimp only
    by_cases hstar : b.symbol = "*"
    · rw [if_pos hstar]
      rcases lookupA st.wildcard_subscriptions c with _ | w
      · exact h
      · exact h
    · rw [if_neg hstar]
      refine aggInv_remove_key_step c _ _ ?_
      rcases lookupA st.client_subscriptions c with _ | subs
      · exact h
      · exact h

theorem aggInv_subscribe (st : AggSM) (c : ClientId) (params : String)
    (now : Nat) (h : AggInv st) : AggInv (st.subscribe c params now).1 := by
  have hfold : AggInv ((subItems params).foldl (subscribe_step c now)
      (st, [], [])).1 := by
    refine foldl_preserve
      (fun acc : AggSM × List String × List String => AggInv acc.1) _ ?_ _ _ h
    intro acc sub hacc
    rcases acc with ⟨s, subscribed, errors⟩
    exact aggInv_subscribe_step c now s subscribed errors sub hacc
  simp only [subscribe]
  split <;> exact hfold

theorem aggInv_unsubscribe (st : AggSM) (c : ClientId) (params : String)
    (h : AggInv st) : AggInv (st.unsubscribe c params) := by
  exact foldl_preserve AggInv _
    (fun s sub hs => aggInv_unsubscribe_step c s sub hs) _ st h

theorem aggInv_remove_client (st : AggSM) (c : ClientId) (h : AggInv st) :
    AggInv (st.remove_client c) := by
  simp only [remove_client]
  have hmid : AggInv (match lookupA st.client_subscriptions c with
      | some keys =>
        keys.foldl (remove_key_step c)
          { st with
            client_subscriptions :=
              mapRemove st.client_subscriptions c }
      | none => st) := by
    rcases lookupA st.client_subscriptions c with _ | keys
    · exact h
    · exact foldl_preserve AggInv _
        (fun s key hs => aggInv_remove_key_step c s key hs) _ _ h
  exact hmid

end AggSM

/-- The mutating entry points of the aggregator-side
`SubscriptionManager`. -/
inductive AggOp where
  | sub (c : ClientId) (params : String) (now : Nat)
  | unsub (c : ClientId) (params : String)
  | rmClient (c : ClientId)
deriving Repr

/-- Apply one aggregator-side operation. -/
def applyAggOp (st : AggSM) : AggOp → AggSM
  | AggOp.sub c params now => (st.subscribe c params now).1
  | AggOp.unsub c params => st.unsubscribe c params
  | AggOp.rmClient c => st.remove_client c

/-- All states reachable from a fresh manager by a call sequence. -/
def runAggOps (minI maxI delay : Nat) (ops : List AggOp) : AggSM :=
  ops.foldl applyAggOp (AggSM.new minI maxI delay)

/-- **C6** (amended): in every reachable aggregator-side state, the
`BarAggregator` for a key `(symbol, interval)` exists iff the key has at
least one specific subscriber: it is created on the first specific
subscribe and dropped as soon as the last specific subscriber leaves
(via `unsubscribe` or `remove_client`) — regardless of any wildcard
subscription at that interval; wildcards never create or preserve
aggregators.  The original "kept if a compatible wildcard remains" is
refuted by `AggSM.wildcard_keepalive_counterexample`. -/
theorem AggSM.aggregator_lifecycle (minI maxI delay : Nat)
    (ops : List AggOp) (k : BarKey) :
    (lookupA (runAggOps minI maxI delay ops).aggregators k).isSome ↔
      ∃ cs, lookupA (runAggOps minI maxI delay ops).key_to_clients k =
          some cs ∧ cs ≠ [] := by
  have hinv : AggInv (runAggOps minI maxI delay ops) := by
    refine foldl_preserve AggInv applyAggOp ?_ ops _ ?_
    · intro s op hs
      rcases op with ⟨c, params, now⟩ | ⟨c, params⟩ | c
      · exact AggSM.aggInv_subscribe s c params now hs
      · exact AggSM.aggInv_unsubscribe s c params hs
      · exact AggSM.aggInv_remove_client s c hs
    · intro k2
      simp [AggSM.new, lookupA, List.find?]
  exact hinv k

/-- Counterexample to C6 as stated: client 1 subscribes `100Ms.AAPL`,
client 2 subscribes the interval wildcard `100Ms.*`, then client 1
unsubscribes.  The aggregator for `(AAPL, 100)` is dropped even though
client 2's compatible wildcard remains. -/
theorem AggSM.wildcard_keepalive_counterexample :
    lookupA (runAggOps 1 60000 20
        [AggOp.sub 1 "100Ms.AAPL" 0, AggOp.sub 2 "100Ms.*" 0,
          AggOp.unsub 1 "100Ms.AAPL"]).aggregators
        ⟨"AAPL", 100⟩ = none ∧
      lookupA (runAggOps 1 60000 20
        [AggOp.sub 1 "100Ms.AAPL" 0, AggOp.sub 2 "100Ms.*" 0,
          AggOp.unsub 1 "100Ms.AAPL"]).wildcard_subscriptions 2 =
        some [100] := by
  decide

/-! ## Decimal rendering of `u64` values (for C10)

`natDigits n` is the character sequence Rust prints for `n` (standard
base-10, most significant digit first); it lets the claim quantify over
every numeral `<N>` in an `<N>Ms.SYM` subscription item. -/

/-- The glyph of one decimal digit. -/
def digitChar : Nat → Char
  | 0 => '0'
  | 1 => '1'
  | 2 => '2'
  | 3 => '3'
  | 4 => '4'
  | 5 => '5'
  | 6 => '6'
  | 7 => '7'
  | 8 => '8'
  | _ => '9'

/-- Fuel-driven most-significant-first digit accumulation. -/
def natDigitsGo : Nat → Nat → List Char → List Char
  | 0, _, acc => acc
  | fuel + 1, n, acc =>
    if n < 10 then digitChar n :: acc
    else natDigitsGo fuel (n / 10) (digitChar (n % 10) :: acc)

/-- Base-10 rendering of a natural number. -/
def natDigits (n : Nat) : List Char :=
  natDigitsGo (n + 1) n []

theorem digitChar_isDigit (d : Nat) : (digitChar d).isDigit = true := by
  unfold digitChar
  split <;> decide

theorem digitChar_toNat (d : Nat) (h : d < 10) :
    (digitChar d).toNat = 48 + d := by
  interval_cases d <;> decide

theorem natDigitsGo_append (fuel : Nat) :
    ∀ (n : Nat) (acc : List Char),
      natDigitsGo fuel n acc = natDigitsGo fuel n [] ++ acc := by
  induction fuel with
  | zero => intro n acc; rfl
  | succ fuel ih =>
    intro n acc
    unfold natDigitsGo
    by_cases h : n < 10
    · rw [if_pos h, if_pos h]
      rfl
    · rw [if_neg h, if_neg h, ih (n / 10) (digitChar (n % 10) :: acc),
        ih (n / 10) [digitChar (n % 10)], List.append_assoc]
      rfl

theorem natDigitsGo_digits (fuel : Nat) :
    ∀ (n : Nat) (acc : List Char), (∀ c ∈ acc, c.isDigit = true) →
      ∀ c ∈ natDigitsGo fuel n acc, c.isDigit = true := by
  induction fuel with
  | zero => intro n acc hacc; exact hacc
  | succ fuel ih =>
    intro n acc hacc c hc
    unfold natDigitsGo at hc
    by_cases h : n < 10
    · rw [if_pos h] at hc
      rcases List.mem_cons.mp hc with h2 | h2
      · rw [h2]; exact digitChar_isDigit n
      · exact hacc c h2
    · rw [if_neg h] at hc
      refine ih (n / 10) _ ?_ c hc
      intro c2 hc2
      rcases List.mem_cons.mp hc2 with h2 | h2
      · rw [h2]; exact digitChar_isDigit (n % 10)
      · exact hacc c2 h2

theorem natDigits_digits (n : Nat) :
    ∀ c ∈ natDigits n, c.isDigit = true := by
  intro c hc
  exact natDigitsGo_digits (n + 1) n [] (by intro c2 hc2; simp at hc2) c hc

theorem natDigits_ne_nil (n : Nat) : natDigits n ≠ [] := by
  unfold natDigits natDigitsGo
  by_cases h : n < 10
  · rw [if_pos h]
    simp
  · rw [if_neg h, natDigitsGo_append]
    simp

theorem natDigitsGo_foldl (fuel : Nat) :
    ∀ (n v : Nat), n < 10 ^ fuel →
      (natDigitsGo fuel n []).foldl
          (fun acc c => acc * 10 + (c.toNat - 48)) v =
        v * 10 ^ (natDigitsGo fuel n []).length + n := by
  induction fuel with
  | zero =>
    intro n v h
    have hn : n = 0 := by
      have : n < 1 := by simpa using h
      omega
    subst hn
    simp [natDigitsGo]
  | succ fuel ih =>
    intro n v h
    unfold natDigitsGo
    by_cases hlt : n < 10
    · rw [if_pos hlt]
      simp only [List.foldl_cons, List.foldl_nil, List.length_cons,
        List.length_nil]
      rw [digitChar_toNat n hlt]
      simp
    · rw [if_neg hlt, natDigitsGo_append]
      rw [List.foldl_append]
      have hdiv : n / 10 < 10 ^ fuel := by
        rw [Nat.div_lt_iff_lt_mul (by omega)]
        calc n < 10 ^ (fuel + 1) := h
        _ = 10 ^ fuel * 10 := by ring
      rw [ih (n / 10) v hdiv]
      simp only [List.foldl_cons, List.foldl_nil, List.length_append,
        List.length_cons, List.length_nil]
      rw [digitChar_toNat (n % 10) (Nat.mod_lt n (by omega))]
      have hmod : 48 + n % 10 - 48 = n % 10 := by omega
      rw [hmod]
      have hdm := Nat.div_add_mod n 10
      ring_nf
      omega

theorem parseU64_natDigits (n : Nat) :
    parseU64 (natDigits n) = if n < u64Mod then some n else none := by
  have hne := natDigits_ne_nil n
  have hdig := natDigits_digits n
  have hhead : (natDigits n).head? ≠ some '+' := by
    rcases hd : natDigits n with _ | ⟨c, rest⟩
    · exact absurd hd hne
    · simp only [List.head?]
      intro hcon
      have hcd : c.isDigit = true := hdig c (by rw [hd]; simp)
      rw [Option.some.injEq] at hcon
      rw [hcon] at hcd
      exact absurd hcd (by decide)
  unfold parseU64
  rw [if_neg hhead]
  rw [if_neg (by
    intro hcon
    exact hne (List.isEmpty_iff.mp hcon))]
  rw [if_pos (by
    rw [List.all_eq_true]
    intro c hc
    simpa using hdig c hc)]
  have hval : (natDigits n).foldl
      (fun acc c => acc * 10 + (c.toNat - 48)) 0 = n := by
    unfold natDigits
    rw [natDigitsGo_foldl (n + 1) n 0 (by
      calc n < 10 ^ n := Nat.lt_pow_self (by omega) n
      _ ≤ 10 ^ (n + 1) := Nat.pow_le_pow_right (by omega) (by omega))]
    simp
  rw [hval]

theorem splitOnChar_no_sep (sep : Char) :
    ∀ (b : List Char), (∀ c ∈ b, ¬ c = sep) →
      splitOnChar sep b = [b] := by
  intro b
  induction b with
  | nil => intro _; rfl
  | cons c b ih =>
    intro h
    have hc : ¬ c = sep := h c (by simp)
    simp only [splitOnChar]
    rw [if_neg hc, ih (fun c2 hc2 => h c2 (List.mem_cons_of_mem _ hc2))]

theorem splitOnChar_append_sep (sep : Char) :
    ∀ (a : List Char) (b : List Char), (∀ c ∈ a, ¬ c = sep) →
      splitOnChar sep (a ++ sep :: b) = a :: splitOnChar sep b := by
  intro a
  induction a with
  | nil =>
    intro b _
    show splitOnChar sep (sep :: b) = [] :: splitOnChar sep b
    simp only [splitOnChar]
    simp
  | cons c a ih =>
    intro b h
    have hc : ¬ c = sep := h c (by simp)
    show splitOnChar sep (c :: (a ++ sep :: b)) = (c :: a) :: splitOnChar sep b
    simp only [splitOnChar]
    rw [if_neg hc, ih b (fun c2 hc2 => h c2 (List.mem_cons_of_mem _ hc2))]

theorem endsWithMs_append_Ms (l : List Char) :
    endsWithMs (l ++ ['M', 's']) = true := by
  unfold endsWithMs
  rw [List.reverse_append]
  rfl

theorem stripRevMs_digits (l : List Char)
    (h : ∀ c ∈ l, c.isDigit = true) : stripRevMs l = l := by
  rcases l with _ | ⟨c1, _ | ⟨c2, rest⟩⟩
  · rfl
  · rfl
  · unfold stripRevMs
    rw [if_neg ?_]
    intro hcon
    have hc1 := h c1 (by simp)
    rw [hcon.1] at hc1
    exact absurd hc1 (by decide)

theorem trimEndMatchesMs_digits_Ms (l : List Char)
    (h : ∀ c ∈ l, c.isDigit = true) :
    trimEndMatchesMs (l ++ ['M', 's']) = l := by
  unfold trimEndMatchesMs
  rw [List.reverse_append]
  show (stripRevMs ('s' :: 'M' :: l.reverse)).reverse = l
  unfold stripRevMs
  rw [if_pos ⟨rfl, rfl⟩]
  rw [stripRevMs_digits l.reverse (by
    intro c hc
    exact h c (List.mem_reverse.mp hc))]
  exact List.reverse_reverse l

/-- **C10.** The parser `parse_ms_subscription` only ever returns
intervals inside the hard-coded `[1, 60000]`; an item that does not
parse — in particular any `<N>Ms.SYM` whose numeral `N` is outside
`[1, 60000]` — is recorded by `subscribe` as an "Invalid subscription
format" error for every configured `[min, max]`, never as an
interval-out-of-range error; a range error can only arise for a parsed
interval in `[1, 60000]` falling outside the configured bounds, which
requires `1 < min` or `max < 60000`. -/
theorem parse_ms_bounds_spec (minI maxI : Nat) (s : String) :
    (∀ b, parse_ms_subscription s = some b →
      1 ≤ b.interval_ms ∧ b.interval_ms ≤ 60000) ∧
    (parse_ms_subscription s = none →
      itemError minI maxI s = some (invalidFormatError s)) ∧
    (∀ b e, parse_ms_subscription s = some b →
      itemError minI maxI s = some e →
      e = intervalRangeError b.interval_ms minI maxI ∧
        (b.interval_ms < minI ∨ maxI < b.interval_ms) ∧
        (1 < minI ∨ maxI < 60000)) ∧
    (∀ (n : Nat) (sym : List Char), (n = 0 ∨ 60000 < n) →
      (∀ c ∈ sym, ¬ c = '.') →
      parse_ms_subscription
        (String.mk (natDigits n ++ ['M', 's'] ++ '.' :: sym)) = none) := by
  have hbounds : ∀ b, parse_ms_subscription s = some b →
      1 ≤ b.interval_ms ∧ b.interval_ms ≤ 60000 := by
    intro b h
    unfold parse_ms_subscription at h
    split at h
    · split at h
      · exact absurd h (by simp)
      · split at h
        · exact absurd h (by simp)
        · split at h
          · exact absurd h (by simp)
          · rename_i hrange
            rw [Option.some.injEq] at h
            rw [← h]
            push_neg at hrange
            dsimp only
            omega
    · exact absurd h (by simp)
  refine ⟨hbounds, ?_, ?_, ?_⟩
  · intro h
    unfold itemError
    rw [h]
  · intro b e hp he
    have he2 : (if b.interval_ms < minI ∨ maxI < b.interval_ms then
        some (intervalRangeError b.interval_ms minI maxI)
      else none) = some e := by
      rw [← he]
      unfold itemError
      rw [hp]
    by_cases hr : b.interval_ms < minI ∨ maxI < b.interval_ms
    · rw [if_pos hr, Option.some.injEq] at he2
      have hb := hbounds b hp
      exact ⟨he2.symm, hr, by omega⟩
    · rw [if_neg hr] at he2
      exact absurd he2 (by simp)
  · intro n sym hn hsym
    have hnodot : ∀ c ∈ natDigits n ++ ['M', 's'], ¬ c = '.' := by
      intro c hc
      rcases List.mem_append.mp hc with h1 | h1
      · have := natDigits_digits n c h1
        intro hcon
        rw [hcon] at this
        exact absurd this (by decide)
      · rcases List.mem_cons.mp h1 with h2 | h2
        · rw [h2]; decide
        · rcases List.mem_cons.mp h2 with h3 | h3
          · rw [h3]; decide
          · simp at h3
    unfold parse_ms_subscription
    have hdata : (String.mk (natDigits n ++ ['M', 's'] ++ '.' :: sym)).data =
        (natDigits n ++ ['M', 's']) ++ '.' :: sym := rfl
    rw [hdata, splitOnChar_append_sep '.' _ _ hnodot,
      splitOnChar_no_sep '.' sym hsym]
    dsimp only
    rw [endsWithMs_append_Ms]
    rw [show (!true) = false from rfl, if_neg (by simp)]
    rw [trimEndMatchesMs_digits_Ms (natDigits n) (natDigits_digits n),
      parseU64_natDigits]
    rcases hn with hn | hn
    · subst hn
      rw [if_pos (by unfold u64Mod; positivity)]
      dsimp only
      rw [if_pos (by omega)]
    · by_cases h64 : n < u64Mod
      · rw [if_pos h64]
        dsimp only
        rw [if_pos (by omega)]
      · rw [if_neg h64]

/-- Witness for C10: the item `0Ms.AAPL` yields the format error for the
widest configured bounds, and an item with numeral 60001 fails to parse. -/
theorem parse_ms_bounds_spec_witness :
    itemError 1 60000 "0Ms.AAPL" =
        some (invalidFormatError "0Ms.AAPL") ∧
      parse_ms_subscription
        (String.mk (natDigits 60001 ++ ['M', 's'] ++ '.' :: "AAPL".data)) =
        none := by
  constructor
  · exact (parse_ms_bounds_spec 1 60000 "0Ms.AAPL").2.1 (by decide)
  · exact (parse_ms_bounds_spec 1 60000 "X").2.2.2 60001 "AAPL".data
      (Or.inr (by omega)) (by decide)

/-! ## Embedding of `polygon_proxy/ms-aggregator/src/trade_buffer.rs` -/

/-- `BufferedTrade`. -/
structure BufferedTrade where
  timestamp : Nat
  price : Int
  size : Nat
deriving DecidableEq, Repr

/-- `TradeBuffer` (the `DashMap` as an association list). -/
structure TradeBuffer where
  trades : List (String × List BufferedTrade)
  max_age_ms : Nat
deriving DecidableEq, Repr

/-- Sentinel for `f64::MIN` under the `Int` embedding of prices: every
finite double exceeds it (|f64| < 2^1024). -/
def f64MinInt : Int := -(2 ^ 1024)

/-- Sentinel for `f64::MAX` under the `Int` embedding of prices. -/
def f64MaxInt : Int := 2 ^ 1024

namespace TradeBuffer

/-- `TradeBuffer::with_duration`. -/
def with_duration (max_age_ms : Nat) : TradeBuffer :=
  { trades := [], max_age_ms := max_age_ms }

/-- `TradeBuffer::new` (`BUFFER_DURATION_MS = 60_000`). -/
def new : TradeBuffer := with_duration 60000

/-- `prune_queue`: drop leading entries older than the cutoff
(`current_time.saturating_sub(max_age_ms)` is `Nat` subtraction). -/
def prune_front (cutoff : Nat) : List BufferedTrade → List BufferedTrade
  | [] => []
  | t :: rest =>
    if t.timestamp < cutoff then prune_front cutoff rest else t :: rest

/-- `TradeBuffer::store`: append to the symbol's queue, then prune old
entries from the front. -/
def store (buf : TradeBuffer) (trade : PolygonTrade) : TradeBuffer :=
  let buffered : BufferedTrade :=
    { timestamp := trade.timestamp, price := trade.price,
      size := trade.size }
  { buf with
    trades :=
      entryUpdate buf.trades trade.symbol []
        (fun q =>
          prune_front (trade.timestamp - buf.max_age_ms)
            (q ++ [buffered])) }

/-- `TradeBuffer::get_trades_since`. -/
def get_trades_since (buf : TradeBuffer) (symbol : String)
    (since_ms : Nat) : List BufferedTrade :=
  ((lookupA buf.trades symbol).getD []).filter
    (fun t => decide (since_ms ≤ t.timestamp))

/-- `iter().max()` of the timestamps (`None` on an empty list). -/
def listMaxTs : List Nat → Option Nat
  | [] => none
  | x :: xs => some (xs.foldl max x)

/-- The window loop of `generate_bars_since`
(`while current_window_start <= last_trade_ts`).  The Rust loop advances
by `interval_ms` per iteration, so with `interval_ms ≥ 1` it runs at most
`last_trade_ts + 1 - current_window_start` times; `fuel` is given that
value by the wrapper (with `interval_ms = 0` the Rust code would not
terminate — a division by zero panics earlier — so no fuel suffices). -/
def genBarsLoop (symbol : String) (interval_ms : Nat)
    (trades : List BufferedTrade) (last_trade_ts : Nat) :
    Nat → Nat → List MsBar
  | 0, _ => []
  | fuel + 1, current_window_start =>
    if current_window_start ≤ last_trade_ts then
      let window_end := current_window_start + interval_ms
      let window_trades := trades.filter (fun t =>
        decide (current_window_start ≤ t.timestamp) &&
          decide (t.timestamp < window_end))
      let rest := genBarsLoop symbol interval_ms trades last_trade_ts
        fuel window_end
      if window_trades.isEmpty then rest
      else
        { event_type := "MB"
          symbol := symbol
          interval_ms := interval_ms
          open_ := ((window_trades.map (·.price)).head?).getD 0
          high := (window_trades.map (·.price)).foldl max f64MinInt
          low := (window_trades.map (·.price)).foldl min f64MaxInt
          close := ((window_trades.map (·.price)).getLast?).getD 0
          volume := (window_trades.map (·.size)).sum
          start_timestamp := current_window_start
          end_timestamp := window_end
          num_trades := window_trades.length % u32Mod } :: rest
    else []

/-- `TradeBuffer::generate_bars_since`. -/
def generate_bars_since (buf : TradeBuffer) (symbol : String)
    (interval_ms since_ms : Nat) : List MsBar :=
  let trades := buf.get_trades_since symbol since_ms
  if trades.isEmpty then []
  else
    let first_window_start := since_ms / interval_ms * interval_ms
    let last_trade_ts := (listMaxTs (trades.map (·.timestamp))).getD since_ms
    genBarsLoop symbol interval_ms trades last_trade_ts
      (last_trade_ts + 1 - first_window_start) first_window_start

end TradeBuffer

namespace TradeBuffer

theorem init_le_foldl_max (xs : List Nat) :
    ∀ x : Nat, x ≤ xs.foldl max x := by
  induction xs with
  | nil => intro x; exact le_refl x
  | cons z xs ih =>
    intro x
    exact le_trans (le_max_left x z) (ih (max x z))

theorem mem_le_foldl_max (xs : List Nat) :
    ∀ (x y : Nat), y ∈ xs → y ≤ xs.foldl max x := by
  induction xs with
  | nil => intro x y h; simp at h
  | cons z xs ih =>
    intro x y h
    rcases List.mem_cons.mp h with h1 | h1
    · subst h1
      exact le_trans (le_max_right x y) (init_le_foldl_max xs (max x y))
    · exact ih (max x z) y h1

theorem le_listMaxTs (l : List Nat) (y : Nat) (h : y ∈ l) :
    ∀ m, listMaxTs l = some m → y ≤ m := by
  rcases l with _ | ⟨x, xs⟩
  · simp at h
  · intro m hm
    simp only [listMaxTs, Option.some.injEq] at hm
    rw [← hm]
    rcases List.mem_cons.mp h with h1 | h1
    · subst h1
      exact init_le_foldl_max xs y
    · exact mem_le_foldl_max xs x y h1

theorem genBarsLoop_start (symbol : String) (interval_ms : Nat)
    (trades : List BufferedTrade) (last_trade_ts : Nat) (fuel : Nat) :
    ∀ cur : Nat, cur % interval_ms = 0 →
      ∀ bar ∈ genBarsLoop symbol interval_ms trades last_trade_ts fuel cur,
        cur ≤ bar.start_timestamp ∧
          bar.start_timestamp % interval_ms = 0 ∧
          bar.end_timestamp = bar.start_timestamp + interval_ms := by
  induction fuel with
  | zero => intro cur hmod bar hbar; simp [genBarsLoop] at hbar
  | succ fuel ih =>
    intro cur hmod bar hbar
    unfold genBarsLoop at hbar
    by_cases hle : cur ≤ last_trade_ts
    · rw [if_pos hle] at hbar
      dsimp only at hbar
      have hnext : (cur + interval_ms) % interval_ms = 0 := by
        rw [Nat.add_mod_right]
        exact hmod
      by_cases hw : (trades.filter (fun t =>
          decide (cur ≤ t.timestamp) &&
            decide (t.timestamp < cur + interval_ms))).isEmpty
      · rw [if_pos hw] at hbar
        have := ih (cur + interval_ms) hnext bar hbar
        exact ⟨by omega, this.2.1, this.2.2⟩
      · rw [if_neg hw] at hbar
        rcases List.mem_cons.mp hbar with h1 | h1
        · rw [h1]
          exact ⟨le_refl _, hmod, rfl⟩
        · have := ih (cur + interval_ms) hnext bar h1
          exact ⟨by omega, this.2.1, this.2.2⟩
    · rw [if_neg hle] at hbar
      simp at hbar

theorem genBarsLoop_coverage (symbol : String) (interval_ms : Nat)
    (trades : List BufferedTrade) (last_trade_ts : Nat)
    (hpos : 0 < interval_ms) (fuel : Nat) :
    ∀ cur : Nat, last_trade_ts + 1 - cur ≤ fuel →
      ∀ t ∈ trades, cur ≤ t.timestamp → t.timestamp ≤ last_trade_ts →
        ∃ bar ∈ genBarsLoop symbol interval_ms trades last_trade_ts fuel cur,
          bar.start_timestamp ≤ t.timestamp ∧
            t.timestamp < bar.end_timestamp := by
  induction fuel with
  | zero =>
    intro cur hfuel t hmem hcur hlast
    omega
  | succ fuel ih =>
    intro cur hfuel t hmem hcur hlast
    have hle : cur ≤ last_trade_ts := le_trans hcur hlast
    unfold genBarsLoop
    rw [if_pos hle]
    dsimp only
    by_cases hin : t.timestamp < cur + interval_ms
    · have htw : t ∈ trades.filter (fun t =>
          decide (cur ≤ t.timestamp) &&
            decide (t.timestamp < cur + interval_ms)) := by
        rw [List.mem_filter]
        refine ⟨hmem, ?_⟩
        simp [hcur, hin]
      have hne : ¬ (trades.filter (fun t =>
          decide (cur ≤ t.timestamp) &&
            decide (t.timestamp < cur + interval_ms))).isEmpty := by
        intro hcon
        rw [List.isEmpty_iff] at hcon
        rw [hcon] at htw
        simp at htw
      rw [if_neg hne]
      refine ⟨_, List.mem_cons_self _ _, ?_, ?_⟩
      · exact hcur
      · exact hin
    · have hrec := ih (cur + interval_ms) (by omega) t hmem (by omega) hlast
      rcases hrec with ⟨bar, hbar, hb1, hb2⟩
      by_cases hw : (trades.filter (fun t =>
          decide (cur ≤ t.timestamp) &&
            decide (t.timestamp < cur + interval_ms))).isEmpty
      · rw [if_pos hw]
        exact ⟨bar, hbar, hb1, hb2⟩
      · rw [if_neg hw]
        exact ⟨bar, List.mem_cons_of_mem _ hbar, hb1, hb2⟩

end TradeBuffer

/-- **C5** (amended): for a subscribe with `since`, every bar replayed
from the trade buffer sits on an interval-aligned window starting no
earlier than `since` rounded **down** to an interval boundary
(`(since / interval) * interval`; equal to `since` only when `since` is
interval-aligned — the original "start ≥ since" fails for unaligned
`since`, see `TradeBuffer.since_alignment_counterexample`), and the
replayed bars cover every buffered trade with timestamp ≥ `since`. -/
theorem TradeBuffer.generate_bars_since_spec (buf : TradeBuffer)
    (symbol : String) (interval_ms since_ms : Nat)
    (hpos : 0 < interval_ms) :
    (∀ bar ∈ buf.generate_bars_since symbol interval_ms since_ms,
      since_ms / interval_ms * interval_ms ≤ bar.start_timestamp ∧
        bar.start_timestamp % interval_ms = 0 ∧
        bar.end_timestamp = bar.start_timestamp + interval_ms) ∧
    (∀ t ∈ buf.get_trades_since symbol since_ms,
      ∃ bar ∈ buf.generate_bars_since symbol interval_ms since_ms,
        bar.start_timestamp ≤ t.timestamp ∧
          t.timestamp < bar.end_timestamp) := by
  constructor
  · intro bar hbar
    simp only [generate_bars_since] at hbar
    by_cases hemp : (buf.get_trades_since symbol since_ms).isEmpty
    · rw [if_pos hemp] at hbar
      simp at hbar
    · rw [if_neg hemp] at hbar
      exact genBarsLoop_start symbol interval_ms _ _ _
        (since_ms / interval_ms * interval_ms) (Nat.mul_mod_left _ _)
        bar hbar
  · intro t hmem
    simp only [generate_bars_since]
    by_cases hemp : (buf.get_trades_since symbol since_ms).isEmpty
    · rw [List.isEmpty_iff] at hemp
      rw [hemp] at hmem
      simp at hmem
    · rw [if_neg hemp]
      have hsince : since_ms ≤ t.timestamp := by
        have := (List.mem_filter.mp hmem).2
        simpa using this
      have hcur : since_ms / interval_ms * interval_ms ≤ t.timestamp :=
        le_trans (Nat.div_mul_le_self _ _) hsince
      have hlast : t.timestamp ≤
          ((listMaxTs ((buf.get_trades_since symbol since_ms).map
            (·.timestamp))).getD since_ms) := by
        rcases hl : listMaxTs ((buf.get_trades_since symbol since_ms).map
            (·.timestamp)) with _ | m
        · have hnil : (buf.get_trades_since symbol since_ms).map
              (·.timestamp) = [] := by
            rcases hq : (buf.get_trades_since symbol since_ms).map
                (·.timestamp) with _ | ⟨x, xs⟩
            · exact hq
            · rw [hq] at hl
              rw [show listMaxTs (x :: xs) = some (xs.foldl max x) from rfl]
                at hl
              exact Option.noConfusion hl
          rw [List.map_eq_nil_iff] at hnil
          rw [hnil] at hmem
          simp at hmem
        · rw [hl, Option.getD_some]
          exact le_listMaxTs _ t.timestamp
            (List.mem_map_of_mem _ hmem) m hl
      exact genBarsLoop_coverage symbol interval_ms _ _ hpos _
        (since_ms / interval_ms * interval_ms) (by omega) t hmem hcur hlast

/-- Counterexample to C5 as stated: with one buffered trade at
timestamp 160 and `since = 150`, `interval = 100`, the replayed bar
starts at 100 < 150 (the code aligns `since` down to the interval
boundary before windowing). -/
theorem TradeBuffer.since_alignment_counterexample :
    (((TradeBuffer.with_duration 60000).store
        { symbol := "AAPL", price := 150, size := 10, timestamp := 160
          : PolygonTrade }).generate_bars_since "AAPL" 100 150).map
        (·.start_timestamp) = [100] ∧
      ¬ (150 : Nat) ≤ 100 := by
  constructor
  · decide
  · decide

/-- Witness for C5 (amended) at a concrete buffer, interval and `since`. -/
theorem TradeBuffer.generate_bars_since_spec_witness :
    0 < 100 ∧
      ∀ bar ∈ ((TradeBuffer.with_duration 60000).store
          { symbol := "AAPL", price := 150, size := 10, timestamp := 160
            : PolygonTrade }).generate_bars_since "AAPL" 100 150,
        150 / 100 * 100 ≤ bar.start_timestamp ∧
          bar.start_timestamp % 100 = 0 ∧
          bar.end_timestamp = bar.start_timestamp + 100 :=
  ⟨by decide,
    (TradeBuffer.generate_bars_since_spec
      ((TradeBuffer.with_duration 60000).store
        { symbol := "AAPL", price := 150, size := 10, timestamp := 160 })
      "AAPL" 100 150 (by decide)).1⟩
